import Mathlib

/-!
Verification of the metered host-function runtime specification against the
repository.  The repository sources available are the test suites of the
near-vm-logic host calls and of the state viewer; the host-call implementation
itself is reconstructed here from the specification (definitions marked
Modelled from the spec), with the test files fixing the exact cost ledgers,
error payloads and limit semantics.
-/

namespace NearVM

/-- Cost kinds appearing in the cost ledger, mirroring the ExtCosts enumeration
used by the tests in src/runtime/near-vm-logic/src/tests/miscs.rs. -/
inductive ExtCosts where
  | base
  | read_memory_base
  | read_memory_byte
  | write_memory_base
  | write_memory_byte
  | read_register_base
  | read_register_byte
  | write_register_base
  | write_register_byte
  | utf8_decoding_base
  | utf8_decoding_byte
  | utf16_decoding_base
  | utf16_decoding_byte
  | log_base
  | log_byte
  | sha256_base
  | sha256_byte
  | ecrecover_base
  | ed25519_verify_base
  | ed25519_verify_byte
  | sr25519_verify_base
  | sr25519_verify_byte
  deriving DecidableEq, Repr

/-- Host-call error taxonomy, mirroring the near_vm_errors HostError variants
asserted by the tests, with the payload fields they carry. -/
inductive HostErr where
  | BadUTF8
  | BadUTF16
  | MemoryAccessViolation
  | InvalidRegisterId (id : Nat)
  | TotalLogLengthExceeded (length limit : Nat)
  | NumberOfLogsExceeded (limit : Nat)
  | KeyLengthExceeded (length limit : Nat)
  | ValueLengthExceeded (length limit : Nat)
  | ReturnedValueLengthExceeded (length limit : Nat)
  | ContractSizeExceeded (size limit : Nat)
  | NumberPromisesExceeded (number_of_promises limit : Nat)
  | NumberInputDataDependenciesExceeded
      (number_of_input_data_dependencies limit : Nat)
  | InvalidPromiseIndex (idx : Nat)
  | InvalidSignatureLength (length : Nat)
  | InvalidPublicKeyLength (length : Nat)
  | MalformedTrieProof
  deriving DecidableEq, Repr

/-- Limit configuration: the immutable set of named numeric ceilings of
section 3 of the spec, with the field names used by the tests. -/
structure LimitConfig where
  max_total_log_length : Nat
  max_number_logs : Nat
  max_length_storage_key : Nat
  max_length_storage_value : Nat
  max_length_returned_data : Nat
  max_contract_size : Nat
  max_promises_per_function_call_action : Nat
  max_number_input_data_dependencies : Nat
  deriving DecidableEq, Repr

/-- Action appended to a promise batch; only contract deployment is exercised
by the tests relevant to the claims. -/
inductive PromiseAction where
  | deployContract (code : List Nat)
  deriving DecidableEq, Repr

/-- Promise record: the memoized dependency count of section 9 of the spec
(1 for a plain batch, the stored sum for a join) plus the appended actions. -/
structure Promise where
  deps : Nat
  actions : List PromiseAction
  deriving DecidableEq, Repr

/-- State of one in-flight execution: configuration, cost ledger (ordered list
of cost-kind and amount pairs), accumulated log lines (as UTF-8 byte strings),
running total log length, registers, promises, storage and return data. -/
structure VMState where
  config : LimitConfig
  ledger : List (ExtCosts × Nat)
  logs : List (List Nat)
  total_log_length : Nat
  registers : List (Nat × List Nat)
  promises : List Promise
  storage : List (List Nat × List Nat)
  return_data : Option (List Nat)
  deriving DecidableEq, Repr

/-- Appends one charge to the cost ledger; the ledger is append-only and
ordered, per section 3 of the spec. -/
def charge (st : VMState) (c : ExtCosts) (n : Nat) : VMState :=
  { st with ledger := st.ledger ++ [(c, n)] }

/-- Total amount charged for one cost kind in a ledger. -/
def countC (l : List (ExtCosts × Nat)) (c : ExtCosts) : Nat :=
  (l.filter (fun p => p.1 = c)).foldr (fun p acc => p.2 + acc) 0

/-- Result of one host call: an error or a value, together with the state
after the call (charges made before a failure point are retained). -/
abbrev VMRes (A : Type) := Except HostErr A × VMState

/-- Sentinel length value: all bits of a u64 set. -/
def u64max : Nat := 2 ^ 64 - 1

/-- Reads len bytes of guest memory starting at ptr; fails (with none) when
the range is outside the addressable memory. -/
def readMem (mem : List Nat) (ptr len : Nat) : Option (List Nat) :=
  if ptr + len ≤ mem.length then some ((mem.drop ptr).take len) else none

/-- Looks up a register by id. -/
def readReg (st : VMState) (id : Nat) : Option (List Nat) :=
  (st.registers.find? (fun p => p.1 = id)).map (fun p => p.2)

/-- Writes a register, replacing any prior contents for the same id. -/
def writeReg (st : VMState) (id : Nat) (v : List Nat) : VMState :=
  { st with registers := (id, v) :: st.registers.filter (fun p => p.1 ≠ id) }

/-- Tests whether a byte is a UTF-8 continuation byte. -/
def isCont (b : Nat) : Bool := 0x80 ≤ b && b < 0xC0

/-- Modelled from the spec: direct UTF-8 validation (section 4.4), per RFC
3629 (continuation structure, no overlongs, no surrogates, max U+10FFFF);
the validating decoder of the host-call implementation is not under src. -/
def utf8Valid : List Nat → Bool
  | [] => true
  | b0 :: rest =>
    if b0 < 0x80 then utf8Valid rest
    else if 0xC2 ≤ b0 && b0 ≤ 0xDF then
      match rest with
      | b1 :: r => isCont b1 && utf8Valid r
      | [] => false
    else if b0 = 0xE0 then
      match rest with
      | b1 :: b2 :: r => (0xA0 ≤ b1 && b1 ≤ 0xBF) && isCont b2 && utf8Valid r
      | _ => false
    else if (0xE1 ≤ b0 && b0 ≤ 0xEC) || b0 = 0xEE || b0 = 0xEF then
      match rest with
      | b1 :: b2 :: r => isCont b1 && isCont b2 && utf8Valid r
      | _ => false
    else if b0 = 0xED then
      match rest with
      | b1 :: b2 :: r => (0x80 ≤ b1 && b1 ≤ 0x9F) && isCont b2 && utf8Valid r
      | _ => false
    else if b0 = 0xF0 then
      match rest with
      | b1 :: b2 :: b3 :: r =>
        (0x90 ≤ b1 && b1 ≤ 0xBF) && isCont b2 && isCont b3 && utf8Valid r
      | _ => false
    else if 0xF1 ≤ b0 && b0 ≤ 0xF3 then
      match rest with
      | b1 :: b2 :: b3 :: r => isCont b1 && isCont b2 && isCont b3 && utf8Valid r
      | _ => false
    else if b0 = 0xF4 then
      match rest with
      | b1 :: b2 :: b3 :: r =>
        (0x80 ≤ b1 && b1 ≤ 0x8F) && isCont b2 && isCont b3 && utf8Valid r
      | _ => false
    else false

/-- Groups a UTF-16LE byte string into 16-bit code units; fails on an odd
number of bytes. -/
def bytesToUnits : List Nat → Option (List Nat)
  | [] => some []
  | lo :: hi :: r => (bytesToUnits r).map (fun us => (lo + 256 * hi) :: us)
  | _ :: [] => none

/-- Modelled from the spec: UTF-16 code-unit sequence decoding to Unicode
code points, validating surrogate-pair correctness (section 4.4); the
decoder of the host-call implementation is not under src. -/
def utf16DecodeUnits : List Nat → Option (List Nat)
  | [] => some []
  | u :: r =>
    if u < 0xD800 || 0xE000 ≤ u then
      (utf16DecodeUnits r).map (fun cs => u :: cs)
    else if u ≤ 0xDBFF then
      match r with
      | u2 :: r2 =>
        if 0xDC00 ≤ u2 && u2 ≤ 0xDFFF then
          (utf16DecodeUnits r2).map
            (fun cs => (0x10000 + (u - 0xD800) * 0x400 + (u2 - 0xDC00)) :: cs)
        else none
      | [] => none
    else none

/-- Encodes one Unicode code point as UTF-8 bytes. -/
def utf8EncodeChar (c : Nat) : List Nat :=
  if c < 0x80 then [c]
  else if c < 0x800 then [0xC0 + c / 64, 0x80 + c % 64]
  else if c < 0x10000 then
    [0xE0 + c / 4096, 0x80 + (c / 64) % 64, 0x80 + c % 64]
  else
    [0xF0 + c / 262144, 0x80 + (c / 4096) % 64, 0x80 + (c / 64) % 64,
      0x80 + c % 64]

/-- Encodes a code point sequence as UTF-8 bytes. -/
def utf8Encode (cs : List Nat) : List Nat :=
  cs.foldr (fun c acc => utf8EncodeChar c ++ acc) []

/-- Modelled from the spec: checked_push_log of the host-call implementation
(not under src): the prospective total log length (current plus new) is
checked against the inclusive ceiling before appension, then one log base
charge plus one log byte charge per decoded byte is made and the line is
appended (sections 4.3 and 4.4). -/
def pushLog (st : VMState) (msg : List Nat) : VMRes Unit :=
  if st.total_log_length + msg.length > st.config.max_total_log_length then
    (.error (.TotalLogLengthExceeded (st.total_log_length + msg.length)
      st.config.max_total_log_length), st)
  else
    let st := charge (charge st .log_base 1) .log_byte msg.length
    (.ok (), { st with logs := st.logs ++ [msg],
                       total_log_length := st.total_log_length + msg.length })

/-- Modelled from the spec: the sentinel-length byte scan of section 4.1 and
4.4 (implementation not under src): bytes are read one at a time, each read
charged base plus one byte, until a zero terminator or until the running
total log length limit would be exceeded, in which case the scan stops after
limit-remainder plus one bytes with a TotalLogLengthExceeded error.  The
allow argument is the number of non-terminator bytes still permitted.
Reading one byte charges read base plus one byte. -/
def readByteCharged (mem : List Nat) (p : Nat) (st : VMState) :
    Option (Nat × VMState) :=
  (mem[p]?).map
    (fun b => (b, charge (charge st .read_memory_base 1) .read_memory_byte 1))

/-- Reads one 16-bit little-endian unit from guest memory, charging base plus
two bytes for the read. -/
def readUnitCharged (mem : List Nat) (p : Nat) (st : VMState) :
    Option (Nat × VMState) :=
  match mem[p]?, mem[p + 1]? with
  | some lo, some hi =>
    some (lo + 256 * hi,
      charge (charge st .read_memory_base 1) .read_memory_byte 2)
  | _, _ => none

def nullScanUtf8 (mem : List Nat) (st : VMState) (acc : List Nat) (p : Nat) :
    Nat → Except HostErr (List Nat) × VMState
  | 0 =>
    match readByteCharged mem p st with
    | none => (.error .MemoryAccessViolation, st)
    | some (b, st1) =>
      if b = 0 then (.ok acc.reverse, st1)
      else
        (.error (.TotalLogLengthExceeded
          (st1.total_log_length
            + (st1.config.max_total_log_length - st1.total_log_length) + 1)
          st1.config.max_total_log_length), st1)
  | allow + 1 =>
    match readByteCharged mem p st with
    | none => (.error .MemoryAccessViolation, st)
    | some (b, st1) =>
      if b = 0 then (.ok acc.reverse, st1)
      else nullScanUtf8 mem st1 (b :: acc) (p + 1) allow

/-- Modelled from the spec: the sentinel-length 16-bit-unit scan of section
4.4 (implementation not under src): units of two bytes are read, each read
charged base plus two bytes, until a zero unit or until the running total log
length limit would be exceeded by the bytes collected so far. -/
def nullScanUtf16 (mem : List Nat) (st : VMState) (acc : List Nat) (p : Nat) :
    Nat → Except HostErr (List Nat) × VMState
  | 0 =>
    match readUnitCharged mem p st with
    | none => (.error .MemoryAccessViolation, st)
    | some (u, st1) =>
      if u = 0 then (.ok acc.reverse, st1)
      else
        (.error (.TotalLogLengthExceeded
          (st1.total_log_length + 2 * (acc.length + 1))
          st1.config.max_total_log_length), st1)
  | allow + 1 =>
    match readUnitCharged mem p st with
    | none => (.error .MemoryAccessViolation, st)
    | some (u, st1) =>
      if u = 0 then (.ok acc.reverse, st1)
      else nullScanUtf16 mem st1 (u :: acc) (p + 2) allow

/-- Modelled from the spec: the log_utf8 host call (implementation not under
src; charging order reconstructed from sections 4.2 to 4.4 and pinned by the
cost assertions of the tests): charge base; enforce the log-count ceiling;
charge the decoding base; for the sentinel length scan until the terminator,
otherwise check the prospective total log length, read memory (base plus one
charge per byte), charge one decoding byte per byte read, validate UTF-8 and
append via pushLog. -/
def log_utf8 (st : VMState) (mem : List Nat) (len ptr : Nat) : VMRes Unit :=
  let st := charge st .base 1
  if st.logs.length + 1 > st.config.max_number_logs then
    (.error (.NumberOfLogsExceeded st.config.max_number_logs), st)
  else
    let st := charge st .utf8_decoding_base 1
    if len = u64max then
      match nullScanUtf8 mem st [] ptr
          (st.config.max_total_log_length - st.total_log_length) with
      | (.error e, st) => (.error e, st)
      | (.ok bytes, st) =>
        let st := charge st .utf8_decoding_byte bytes.length
        if utf8Valid bytes then pushLog st bytes
        else (.error .BadUTF8, st)
    else
      if st.total_log_length + len > st.config.max_total_log_length then
        (.error (.TotalLogLengthExceeded (st.total_log_length + len)
          st.config.max_total_log_length), st)
      else
        match readMem mem ptr len with
        | none => (.error .MemoryAccessViolation, st)
        | some bytes =>
          let st := charge (charge st .read_memory_base 1) .read_memory_byte len
          let st := charge st .utf8_decoding_byte len
          if utf8Valid bytes then pushLog st bytes
          else (.error .BadUTF8, st)

/-- Modelled from the spec: the log_utf16 host call (implementation not under
src; structure as for log_utf8 with two-byte units, the decoded line being
the UTF-8 encoding of the decoded code points). -/
def log_utf16 (st : VMState) (mem : List Nat) (len ptr : Nat) : VMRes Unit :=
  let st := charge st .base 1
  if st.logs.length + 1 > st.config.max_number_logs then
    (.error (.NumberOfLogsExceeded st.config.max_number_logs), st)
  else
    let st := charge st .utf16_decoding_base 1
    if len = u64max then
      match nullScanUtf16 mem st [] ptr
          ((st.config.max_total_log_length - st.total_log_length) / 2) with
      | (.error e, st) => (.error e, st)
      | (.ok units, st) =>
        let st := charge st .utf16_decoding_byte (2 * units.length)
        match utf16DecodeUnits units with
        | some cs => pushLog st (utf8Encode cs)
        | none => (.error .BadUTF16, st)
    else
      if st.total_log_length + len > st.config.max_total_log_length then
        (.error (.TotalLogLengthExceeded (st.total_log_length + len)
          st.config.max_total_log_length), st)
      else
        match readMem mem ptr len with
        | none => (.error .MemoryAccessViolation, st)
        | some bytes =>
          let st := charge (charge st .read_memory_base 1) .read_memory_byte len
          let st := charge st .utf16_decoding_byte len
          match bytesToUnits bytes with
          | none => (.error .BadUTF16, st)
          | some units =>
            match utf16DecodeUnits units with
            | some cs => pushLog st (utf8Encode cs)
            | none => (.error .BadUTF16, st)

/-- Modelled from the spec: the storage_has_key host call (section 4.7,
implementation not under src): the key is read from guest memory, its length
is checked against the configured ceiling before any interaction with the
store, and only then is the lookup delegated. -/
def storage_has_key (st : VMState) (mem : List Nat) (key_len key_ptr : Nat) :
    VMRes Bool :=
  let st := charge st .base 1
  match readMem mem key_ptr key_len with
  | none => (.error .MemoryAccessViolation, st)
  | some key =>
    if key.length > st.config.max_length_storage_key then
      (.error (.KeyLengthExceeded key.length st.config.max_length_storage_key),
        st)
    else (.ok (st.storage.find? (fun p => p.1 = key)).isSome, st)

/-- Modelled from the spec: the storage_read host call (section 4.7,
implementation not under src). -/
def storage_read (st : VMState) (mem : List Nat)
    (key_len key_ptr register_id : Nat) : VMRes Bool :=
  let st := charge st .base 1
  match readMem mem key_ptr key_len with
  | none => (.error .MemoryAccessViolation, st)
  | some key =>
    if key.length > st.config.max_length_storage_key then
      (.error (.KeyLengthExceeded key.length st.config.max_length_storage_key),
        st)
    else
      match st.storage.find? (fun p => p.1 = key) with
      | some p => (.ok true, writeReg st register_id p.2)
      | none => (.ok false, st)

/-- Modelled from the spec: the storage_write host call (section 4.7,
implementation not under src): the key and value are read, key length and
value length are checked against the ceilings before any mutation, and a
write that fails a length check never touches storage; the call reports
whether a prior value existed. -/
def storage_write (st : VMState) (mem : List Nat)
    (key_len key_ptr value_len value_ptr register_id : Nat) : VMRes Bool :=
  let st := charge st .base 1
  match readMem mem key_ptr key_len, readMem mem value_ptr value_len with
  | some key, some value =>
    if key.length > st.config.max_length_storage_key then
      (.error (.KeyLengthExceeded key.length st.config.max_length_storage_key),
        st)
    else if value.length > st.config.max_length_storage_value then
      (.error (.ValueLengthExceeded value.length
        st.config.max_length_storage_value), st)
    else
      let prior := st.storage.find? (fun p => p.1 = key)
      let st := match prior with
        | some p => writeReg st register_id p.2
        | none => st
      (.ok prior.isSome,
        { st with storage :=
            (key, value) :: st.storage.filter (fun p => p.1 ≠ key) })
  | _, _ => (.error .MemoryAccessViolation, st)

/-- Modelled from the spec: the storage_remove host call (section 4.7,
implementation not under src): removal is idempotent; removing an absent key
is not an error. -/
def storage_remove (st : VMState) (mem : List Nat)
    (key_len key_ptr register_id : Nat) : VMRes Bool :=
  let st := charge st .base 1
  match readMem mem key_ptr key_len with
  | none => (.error .MemoryAccessViolation, st)
  | some key =>
    if key.length > st.config.max_length_storage_key then
      (.error (.KeyLengthExceeded key.length st.config.max_length_storage_key),
        st)
    else
      let prior := st.storage.find? (fun p => p.1 = key)
      let st := match prior with
        | some p => writeReg st register_id p.2
        | none => st
      (.ok prior.isSome,
        { st with storage := st.storage.filter (fun p => p.1 ≠ key) })

/-- Modelled from the spec: the value_return host call: the returned value is
read and its length checked against the configured ceiling (sections 4.3 and
6); the implementation is not under src. -/
def value_return (st : VMState) (mem : List Nat) (len ptr : Nat) :
    VMRes Unit :=
  let st := charge st .base 1
  match readMem mem ptr len with
  | none => (.error .MemoryAccessViolation, st)
  | some v =>
    if v.length > st.config.max_length_returned_data then
      (.error (.ReturnedValueLengthExceeded v.length
        st.config.max_length_returned_data), st)
    else (.ok (), { st with return_data := some v })

/-- Modelled from the spec: the promise_batch_create host call (section 4.8,
implementation not under src): allocates a new promise handle with dependency
count 1, charged against the promise-count limit evaluated on the prospective
count. -/
def promise_batch_create (st : VMState) (mem : List Nat) (len ptr : Nat) :
    VMRes Nat :=
  let st := charge st .base 1
  match readMem mem ptr len with
  | none => (.error .MemoryAccessViolation, st)
  | some _account =>
    if st.promises.length + 1 >
        st.config.max_promises_per_function_call_action then
      (.error (.NumberPromisesExceeded (st.promises.length + 1)
        st.config.max_promises_per_function_call_action), st)
    else
      (.ok st.promises.length,
        { st with promises := st.promises ++ [⟨1, []⟩] })

/-- Sums the memoized dependency counts of the listed promise handles
(section 9 of the spec: time proportional to the number of operands). -/
def depsSum (st : VMState) : List Nat → Except HostErr Nat
  | [] => .ok 0
  | i :: r =>
    match st.promises[i]? with
    | none => .error (.InvalidPromiseIndex i)
    | some pr => (depsSum st r).map (fun s => pr.deps + s)

/-- Modelled from the spec: the promise_and host call (section 4.8,
implementation not under src): the new handle represents the join of the
listed promises and its dependency count is the sum of each operand's own
stored count; the sum is checked against the configured ceiling (inclusive)
before the handle is allocated.  The promise-id array is taken directly as a
list (the guest-memory encoding of the id array is elided). -/
def promise_and (st : VMState) (ids : List Nat) : VMRes Nat :=
  let st := charge st .base 1
  match depsSum st ids with
  | .error e => (.error e, st)
  | .ok s =>
    if s > st.config.max_number_input_data_dependencies then
      (.error (.NumberInputDataDependenciesExceeded s
        st.config.max_number_input_data_dependencies), st)
    else
      (.ok st.promises.length,
        { st with promises := st.promises ++ [⟨s, []⟩] })

/-- Modelled from the spec: the promise_batch_action_deploy_contract host
call (section 4.8, implementation not under src): appends a deploy action to
an existing batch after checking the code-size limit. -/
def promise_batch_action_deploy_contract (st : VMState) (mem : List Nat)
    (promise_idx code_len code_ptr : Nat) : VMRes Unit :=
  let st := charge st .base 1
  match readMem mem code_ptr code_len with
  | none => (.error .MemoryAccessViolation, st)
  | some code =>
    if code.length > st.config.max_contract_size then
      (.error (.ContractSizeExceeded code.length st.config.max_contract_size),
        st)
    else
      match st.promises[promise_idx]? with
      | none => (.error (.InvalidPromiseIndex promise_idx), st)
      | some pr =>
        let pr2 : Promise :=
          { pr with actions := pr.actions ++ [.deployContract code] }
        (.ok (), { st with promises := st.promises.set promise_idx pr2 })

/-- Modelled from the spec: the sha256 host call (section 4.5, implementation
not under src): read input from memory, compute the pure digest, write it to
a register, charging base, memory read base plus per byte, hash base plus per
input byte, and register write base plus per output byte.  The digest
function itself is a parameter. -/
def sha256 (hashFn : List Nat → List Nat) (st : VMState) (mem : List Nat)
    (len ptr register_id : Nat) : VMRes Unit :=
  let st := charge st .base 1
  match readMem mem ptr len with
  | none => (.error .MemoryAccessViolation, st)
  | some data =>
    let st := charge (charge st .read_memory_base 1) .read_memory_byte len
    let st := charge (charge st .sha256_base 1) .sha256_byte len
    let digest := hashFn data
    let st := charge (charge st .write_register_base 1)
      .write_register_byte digest.length
    (.ok (), writeReg st register_id digest)

/-- Modelled from the spec and the test cost assertions: the ecrecover host
call (section 4.5, implementation not under src): reads the 32-byte message
hash and 64-byte signature (two memory reads, 96 bytes), charges the
ecrecover base cost, and on success writes the 64-byte recovered key to the
register, charging the register write only then.  The test cost map of
test_ecrecover contains no ExtCosts base entry, so no base charge is made.
The recovery function itself is a parameter. -/
def ecrecover (recover : List Nat → List Nat → Nat → Nat → Option (List Nat))
    (st : VMState) (mem : List Nat)
    (m_ptr sig_ptr v mc register_id : Nat) : VMRes Nat :=
  match readMem mem m_ptr 32, readMem mem sig_ptr 64 with
  | some m, some sig =>
    let st := charge (charge st .read_memory_base 2) .read_memory_byte 96
    let st := charge st .ecrecover_base 1
    match recover m sig v mc with
    | some pk =>
      let st := charge (charge st .write_register_base 1)
        .write_register_byte 64
      (.ok 1, writeReg st register_id pk)
    | none => (.ok 0, st)
  | _, _ => (.error .MemoryAccessViolation, st)

/-- Modelled from the spec: the ed25519_verify host call (section 4.5,
implementation not under src): takes signature, message and public key,
writes a single boolean byte to the output register, and never fails for a
mismatched signature; only malformed input lengths are errors.  The pure
verification function is a parameter; metering other than the base charge is
elided. -/
def ed25519_verify (validSig : List Nat → List Nat → List Nat → Bool)
    (st : VMState) (mem : List Nat)
    (sig_len sig_ptr msg_len msg_ptr pk_len pk_ptr register_id : Nat) :
    VMRes Unit :=
  let st := charge st .base 1
  match readMem mem sig_ptr sig_len, readMem mem msg_ptr msg_len,
      readMem mem pk_ptr pk_len with
  | some sig, some msg, some pk =>
    if sig.length ≠ 64 then
      (.error (.InvalidSignatureLength sig.length), st)
    else if pk.length ≠ 32 then
      (.error (.InvalidPublicKeyLength pk.length), st)
    else
      (.ok (),
        writeReg st register_id [if validSig sig msg pk then 1 else 0])
  | _, _, _ => (.error .MemoryAccessViolation, st)

/-- Modelled from the spec: the sr25519_verify host call, with the same
contract as ed25519_verify. -/
def sr25519_verify (validSig : List Nat → List Nat → List Nat → Bool)
    (st : VMState) (mem : List Nat)
    (sig_len sig_ptr msg_len msg_ptr pk_len pk_ptr register_id : Nat) :
    VMRes Unit :=
  let st := charge st .base 1
  match readMem mem sig_ptr sig_len, readMem mem msg_ptr msg_len,
      readMem mem pk_ptr pk_len with
  | some sig, some msg, some pk =>
    if sig.length ≠ 64 then
      (.error (.InvalidSignatureLength sig.length), st)
    else if pk.length ≠ 32 then
      (.error (.InvalidPublicKeyLength pk.length), st)
    else
      (.ok (),
        writeReg st register_id [if validSig sig msg pk then 1 else 0])
  | _, _, _ => (.error .MemoryAccessViolation, st)

/-- Final outcome: the accumulated log lines in emission order and the cost
breakdown per cost kind read out of the ledger. -/
structure Outcome where
  logs : List (List Nat)
  burnt : ExtCosts → Nat

/-- Modelled from the spec: compute_outcome_and_distribute_gas finalizes the
ledger into a per-kind breakdown and returns the log lines in emission order
(section 4.2); the implementation is not under src. -/
def compute_outcome_and_distribute_gas (st : VMState) : Outcome :=
  { logs := st.logs, burnt := fun c => countC st.ledger c }

end NearVM


namespace NearVM

@[simp] theorem charge_config (st : VMState) (c : ExtCosts) (n : Nat) :
    (charge st c n).config = st.config := rfl

@[simp] theorem charge_logs (st : VMState) (c : ExtCosts) (n : Nat) :
    (charge st c n).logs = st.logs := rfl

@[simp] theorem charge_total (st : VMState) (c : ExtCosts) (n : Nat) :
    (charge st c n).total_log_length = st.total_log_length := rfl

@[simp] theorem charge_ledger (st : VMState) (c : ExtCosts) (n : Nat) :
    (charge st c n).ledger = st.ledger ++ [(c, n)] := rfl

@[simp] theorem charge_promises (st : VMState) (c : ExtCosts) (n : Nat) :
    (charge st c n).promises = st.promises := rfl

@[simp] theorem charge_storage (st : VMState) (c : ExtCosts) (n : Nat) :
    (charge st c n).storage = st.storage := rfl

@[simp] theorem charge_registers (st : VMState) (c : ExtCosts) (n : Nat) :
    (charge st c n).registers = st.registers := rfl

@[simp] theorem charge_return_data (st : VMState) (c : ExtCosts) (n : Nat) :
    (charge st c n).return_data = st.return_data := rfl

theorem countC_append (a b : List (ExtCosts × Nat)) (c : ExtCosts) :
    countC (a ++ b) c = countC a c + countC b c := by
  induction a with
  | nil => simp [countC]
  | cons p r ih =>
    by_cases h : p.1 = c <;>
      simp [countC, List.filter_cons, h] at ih ⊢ <;> omega

@[simp] theorem countC_nil (c : ExtCosts) : countC [] c = 0 := rfl

theorem countC_cons (c2 : ExtCosts) (m : Nat) (l : List (ExtCosts × Nat))
    (c : ExtCosts) :
    countC ((c2, m) :: l) c = (if c2 = c then m else 0) + countC l c := by
  by_cases h : c2 = c <;> simp [countC, List.filter_cons, h]

/-- The claim of C6, UTF-8 half: a valid UTF-8 byte string within the
configured limits is appended verbatim as the next log line, with the exact
ledger delta base, decoding base, memory read base plus one per byte, one
decoding byte per byte, log base and one log byte per decoded byte. -/
theorem log_utf8_valid (st : VMState) (mem : List Nat) (ptr : Nat)
    (bytes : List Nat)
    (hread : readMem mem ptr bytes.length = some bytes)
    (hvalid : utf8Valid bytes = true)
    (hlen : bytes.length ≠ u64max)
    (hcount : st.logs.length + 1 ≤ st.config.max_number_logs)
    (htot : st.total_log_length + bytes.length ≤
      st.config.max_total_log_length) :
    log_utf8 st mem bytes.length ptr =
      (.ok (), { st with
        ledger := st.ledger ++ [(.base, 1), (.utf8_decoding_base, 1),
          (.read_memory_base, 1), (.read_memory_byte, bytes.length),
          (.utf8_decoding_byte, bytes.length), (.log_base, 1),
          (.log_byte, bytes.length)],
        logs := st.logs ++ [bytes],
        total_log_length := st.total_log_length + bytes.length }) := by
  have h1 : ¬ (st.logs.length + 1 > st.config.max_number_logs) := by omega
  have h2 : ¬ (st.total_log_length + bytes.length >
      st.config.max_total_log_length) := by omega
  simp [log_utf8, pushLog, h1, h2, hlen, hread, hvalid]

/-- Claim of C6, UTF-16 half: a byte string that groups into valid UTF-16LE
code units within the configured limits is decoded and its UTF-8 encoding
appended as the next log line, the log byte charge counting decoded UTF-8
bytes, the decoding byte charge counting raw input bytes. -/
theorem log_utf16_valid (st : VMState) (mem : List Nat) (ptr : Nat)
    (bytes units cs : List Nat)
    (hread : readMem mem ptr bytes.length = some bytes)
    (hunits : bytesToUnits bytes = some units)
    (hdec : utf16DecodeUnits units = some cs)
    (hlen : bytes.length ≠ u64max)
    (hcount : st.logs.length + 1 ≤ st.config.max_number_logs)
    (htot1 : st.total_log_length + bytes.length ≤
      st.config.max_total_log_length)
    (htot2 : st.total_log_length + (utf8Encode cs).length ≤
      st.config.max_total_log_length) :
    log_utf16 st mem bytes.length ptr =
      (.ok (), { st with
        ledger := st.ledger ++ [(.base, 1), (.utf16_decoding_base, 1),
          (.read_memory_base, 1), (.read_memory_byte, bytes.length),
          (.utf16_decoding_byte, bytes.length), (.log_base, 1),
          (.log_byte, (utf8Encode cs).length)],
        logs := st.logs ++ [utf8Encode cs],
        total_log_length :=
          st.total_log_length + (utf8Encode cs).length }) := by
  have h1 : ¬ (st.logs.length + 1 > st.config.max_number_logs) := by omega
  have h2 : ¬ (st.total_log_length + bytes.length >
      st.config.max_total_log_length) := by omega
  have h3 : ¬ (st.total_log_length + (utf8Encode cs).length >
      st.config.max_total_log_length) := by omega
  simp [log_utf16, pushLog, h1, h2, h3, hlen, hread, hunits, hdec]

/-- C6: for every byte string of valid UTF-8 (resp. valid little-endian
UTF-16) within the configured limits, log_utf8 (resp. log_utf16) appends
exactly the decoded string as the next log line returned by
compute_outcome_and_distribute_gas, charging one log base plus one log byte
per decoded byte; for UTF-16 input the log byte count equals the decoded
string's UTF-8 byte length, not the raw input byte length. -/
theorem C6_log_appends_decoded_line :
    (∀ (st : VMState) (mem : List Nat) (ptr : Nat) (bytes : List Nat),
      readMem mem ptr bytes.length = some bytes →
      utf8Valid bytes = true →
      bytes.length ≠ u64max →
      st.logs.length + 1 ≤ st.config.max_number_logs →
      st.total_log_length + bytes.length ≤ st.config.max_total_log_length →
      (log_utf8 st mem bytes.length ptr).1 = .ok () ∧
      (compute_outcome_and_distribute_gas
        (log_utf8 st mem bytes.length ptr).2).logs = st.logs ++ [bytes] ∧
      (log_utf8 st mem bytes.length ptr).2.ledger =
        st.ledger ++ [(.base, 1), (.utf8_decoding_base, 1),
          (.read_memory_base, 1), (.read_memory_byte, bytes.length),
          (.utf8_decoding_byte, bytes.length), (.log_base, 1),
          (.log_byte, bytes.length)]) ∧
    (∀ (st : VMState) (mem : List Nat) (ptr : Nat) (bytes units cs : List Nat),
      readMem mem ptr bytes.length = some bytes →
      bytesToUnits bytes = some units →
      utf16DecodeUnits units = some cs →
      bytes.length ≠ u64max →
      st.logs.length + 1 ≤ st.config.max_number_logs →
      st.total_log_length + bytes.length ≤ st.config.max_total_log_length →
      st.total_log_length + (utf8Encode cs).length ≤
        st.config.max_total_log_length →
      (log_utf16 st mem bytes.length ptr).1 = .ok () ∧
      (compute_outcome_and_distribute_gas
        (log_utf16 st mem bytes.length ptr).2).logs =
          st.logs ++ [utf8Encode cs] ∧
      (log_utf16 st mem bytes.length ptr).2.ledger =
        st.ledger ++ [(.base, 1), (.utf16_decoding_base, 1),
          (.read_memory_base, 1), (.read_memory_byte, bytes.length),
          (.utf16_decoding_byte, bytes.length), (.log_base, 1),
          (.log_byte, (utf8Encode cs).length)]) := by
  constructor
  · intro st mem ptr bytes hread hvalid hlen hcount htot
    rw [log_utf8_valid st mem ptr bytes hread hvalid hlen hcount htot]
    simp [compute_outcome_and_distribute_gas]
  · intro st mem ptr bytes units cs hread hunits hdec hlen hcount htot1 htot2
    rw [log_utf16_valid st mem ptr bytes units cs hread hunits hdec hlen
      hcount htot1 htot2]
    simp [compute_outcome_and_distribute_gas]

/-- Witness for C6: both halves instantiated on concrete inputs, the UTF-8
half on the two-byte line "hi", the UTF-16 half on the two units of "hi"
(four raw bytes decoding to two UTF-8 bytes). -/
theorem C6_witness :
    ((log_utf8 ⟨⟨100, 10, 100, 100, 100, 100, 10, 10⟩, [], [], 0, [], [], [],
        none⟩ [104, 105] 2 0).1 = .ok () ∧
      (compute_outcome_and_distribute_gas
        (log_utf8 ⟨⟨100, 10, 100, 100, 100, 100, 10, 10⟩, [], [], 0, [], [],
          [], none⟩ [104, 105] 2 0).2).logs = [] ++ [[104, 105]] ∧
      (log_utf8 ⟨⟨100, 10, 100, 100, 100, 100, 10, 10⟩, [], [], 0, [], [], [],
        none⟩ [104, 105] 2 0).2.ledger =
        [] ++ [(.base, 1), (.utf8_decoding_base, 1), (.read_memory_base, 1),
          (.read_memory_byte, 2), (.utf8_decoding_byte, 2), (.log_base, 1),
          (.log_byte, 2)]) ∧
    ((log_utf16 ⟨⟨100, 10, 100, 100, 100, 100, 10, 10⟩, [], [], 0, [], [], [],
        none⟩ [104, 0, 105, 0] 4 0).1 = .ok () ∧
      (compute_outcome_and_distribute_gas
        (log_utf16 ⟨⟨100, 10, 100, 100, 100, 100, 10, 10⟩, [], [], 0, [], [],
          [], none⟩ [104, 0, 105, 0] 4 0).2).logs =
        [] ++ [utf8Encode [104, 105]] ∧
      (log_utf16 ⟨⟨100, 10, 100, 100, 100, 100, 10, 10⟩, [], [], 0, [], [], [],
        none⟩ [104, 0, 105, 0] 4 0).2.ledger =
        [] ++ [(.base, 1), (.utf16_decoding_base, 1), (.read_memory_base, 1),
          (.read_memory_byte, 4), (.utf16_decoding_byte, 4), (.log_base, 1),
          (.log_byte, (utf8Encode [104, 105]).length)]) :=
  ⟨C6_log_appends_decoded_line.1 _ [104, 105] 0 [104, 105] (by rfl) (by rfl)
      (by decide) (by decide) (by decide),
    C6_log_appends_decoded_line.2 _ [104, 0, 105, 0] 0 [104, 0, 105, 0]
      [104, 105] [104, 105] (by rfl) (by rfl) (by rfl) (by decide)
      (by decide) (by decide) (by decide)⟩

/-- Claim of C4, first half: log_utf8 failing UTF-8 validation charges base,
the memory read and the decoding attempt, but nothing after the failure
point. -/
theorem log_utf8_invalid (st : VMState) (mem : List Nat) (ptr len : Nat)
    (bytes : List Nat)
    (hread : readMem mem ptr len = some bytes)
    (hinv : utf8Valid bytes = false)
    (hlen : len ≠ u64max)
    (hcount : st.logs.length + 1 ≤ st.config.max_number_logs)
    (htot : st.total_log_length + len ≤ st.config.max_total_log_length) :
    log_utf8 st mem len ptr =
      (.error .BadUTF8, { st with
        ledger := st.ledger ++ [(.base, 1), (.utf8_decoding_base, 1),
          (.read_memory_base, 1), (.read_memory_byte, len),
          (.utf8_decoding_byte, len)] }) := by
  have h1 : ¬ (st.logs.length + 1 > st.config.max_number_logs) := by omega
  have h2 : ¬ (st.total_log_length + len >
      st.config.max_total_log_length) := by omega
  simp [log_utf8, h1, h2, hlen, hread, hinv, charge]

/-- Claim of C4, second half: a log_utf8 call whose declared length already
exceeds the remaining total log length charges only base and the decoding
base; the memory is never read. -/
theorem log_utf8_too_long (st : VMState) (mem : List Nat) (ptr len : Nat)
    (hlen : len ≠ u64max)
    (hcount : st.logs.length + 1 ≤ st.config.max_number_logs)
    (htot : st.total_log_length + len > st.config.max_total_log_length) :
    log_utf8 st mem len ptr =
      (.error (.TotalLogLengthExceeded (st.total_log_length + len)
          st.config.max_total_log_length),
        { st with
          ledger := st.ledger ++ [(.base, 1), (.utf8_decoding_base, 1)] }) := by
  have h1 : ¬ (st.logs.length + 1 > st.config.max_number_logs) := by omega
  simp [log_utf8, h1, htot, hlen, charge]

/-- C4: a host call that fails partway charges exactly the work performed
before the failure point and nothing after it: log_utf8 failing UTF-8
validation still charges base, the memory read and the decoding attempt but
no log base or log byte, and log_utf8 whose declared length already exceeds
the total log length limit charges only base and the decoding base, with no
memory read or per-byte decoding charges; in both cases the log list is
unchanged. -/
theorem C4_progressive_charging :
    (∀ (st : VMState) (mem : List Nat) (ptr len : Nat) (bytes : List Nat),
      readMem mem ptr len = some bytes →
      utf8Valid bytes = false →
      len ≠ u64max →
      st.logs.length + 1 ≤ st.config.max_number_logs →
      st.total_log_length + len ≤ st.config.max_total_log_length →
      (log_utf8 st mem len ptr).1 = .error .BadUTF8 ∧
      (log_utf8 st mem len ptr).2.ledger =
        st.ledger ++ [(.base, 1), (.utf8_decoding_base, 1),
          (.read_memory_base, 1), (.read_memory_byte, len),
          (.utf8_decoding_byte, len)] ∧
      (log_utf8 st mem len ptr).2.logs = st.logs) ∧
    (∀ (st : VMState) (mem : List Nat) (ptr len : Nat),
      len ≠ u64max →
      st.logs.length + 1 ≤ st.config.max_number_logs →
      st.total_log_length + len > st.config.max_total_log_length →
      (log_utf8 st mem len ptr).1 =
        .error (.TotalLogLengthExceeded (st.total_log_length + len)
          st.config.max_total_log_length) ∧
      (log_utf8 st mem len ptr).2.ledger =
        st.ledger ++ [(.base, 1), (.utf8_decoding_base, 1)] ∧
      (log_utf8 st mem len ptr).2.logs = st.logs) := by
  constructor
  · intro st mem ptr len bytes hread hinv hlen hcount htot
    rw [log_utf8_invalid st mem ptr len bytes hread hinv hlen hcount htot]
    simp
  · intro st mem ptr len hlen hcount htot
    rw [log_utf8_too_long st mem ptr len hlen hcount htot]
    simp

/-- Witness for C4: the single byte 128 is invalid UTF-8 (first half); a
declared length of 4 against a total log length limit of 3 (second half). -/
theorem C4_witness :
    ((log_utf8 ⟨⟨100, 10, 100, 100, 100, 100, 10, 10⟩, [], [], 0, [], [], [],
        none⟩ [128] 1 0).1 = .error .BadUTF8 ∧
      (log_utf8 ⟨⟨100, 10, 100, 100, 100, 100, 10, 10⟩, [], [], 0, [], [], [],
        none⟩ [128] 1 0).2.ledger =
        [] ++ [(.base, 1), (.utf8_decoding_base, 1), (.read_memory_base, 1),
          (.read_memory_byte, 1), (.utf8_decoding_byte, 1)] ∧
      (log_utf8 ⟨⟨100, 10, 100, 100, 100, 100, 10, 10⟩, [], [], 0, [], [], [],
        none⟩ [128] 1 0).2.logs = []) ∧
    ((log_utf8 ⟨⟨3, 10, 100, 100, 100, 100, 10, 10⟩, [], [], 0, [], [], [],
        none⟩ [97, 98, 99, 100] 4 0).1 =
        .error (.TotalLogLengthExceeded (0 + 4) 3) ∧
      (log_utf8 ⟨⟨3, 10, 100, 100, 100, 100, 10, 10⟩, [], [], 0, [], [], [],
        none⟩ [97, 98, 99, 100] 4 0).2.ledger =
        [] ++ [(.base, 1), (.utf8_decoding_base, 1)] ∧
      (log_utf8 ⟨⟨3, 10, 100, 100, 100, 100, 10, 10⟩, [], [], 0, [], [], [],
        none⟩ [97, 98, 99, 100] 4 0).2.logs = []) :=
  ⟨C4_progressive_charging.1 _ [128] 0 1 [128] (by rfl) (by rfl) (by decide)
      (by decide) (by decide),
    C4_progressive_charging.2 _ [97, 98, 99, 100] 0 4 (by decide) (by decide)
      (by decide)⟩

/-- Counterexample for C5: a concrete ecrecover invocation adds no ExtCosts
base charge to the ledger at all (its ledger is exactly the two memory reads,
96 bytes, and the ecrecover base), contradicting the claim that ecrecover,
like sha256 and log_utf8, adds one ExtCosts base charge per invocation. -/
theorem C5_counterexample :
    (ecrecover (fun _ _ _ _ => none)
      ⟨⟨100, 10, 100, 100, 100, 100, 10, 10⟩, [], [], 0, [], [], [], none⟩
      (List.replicate 96 0) 0 32 0 0 1).2.ledger =
      [(.read_memory_base, 2), (.read_memory_byte, 96), (.ecrecover_base, 1)]
    ∧ countC (ecrecover (fun _ _ _ _ => none)
      ⟨⟨100, 10, 100, 100, 100, 100, 10, 10⟩, [], [], 0, [], [], [], none⟩
      (List.replicate 96 0) 0 32 0 0 1).2.ledger .base = 0 := by
  constructor <;> rfl

/-- C5 as amended: sha256 and log_utf8 each add exactly one ExtCosts base
charge to the ledger per invocation, before the itemized charges, but
ecrecover adds none: its ledger delta is exactly the memory reads, the
ecrecover base and (on success only) the register write, with no ExtCosts
base entry, as asserted by the exact cost map of test_ecrecover. -/
theorem C5_base_charges :
    (∀ (hashFn : List Nat → List Nat) (st : VMState) (mem : List Nat)
        (len ptr rid : Nat) (data : List Nat),
      readMem mem ptr len = some data →
      (sha256 hashFn st mem len ptr rid).2.ledger =
        st.ledger ++ [(.base, 1), (.read_memory_base, 1),
          (.read_memory_byte, len), (.sha256_base, 1), (.sha256_byte, len),
          (.write_register_base, 1),
          (.write_register_byte, (hashFn data).length)] ∧
      countC (sha256 hashFn st mem len ptr rid).2.ledger .base =
        countC st.ledger .base + 1) ∧
    (∀ (st : VMState) (mem : List Nat) (ptr : Nat) (bytes : List Nat),
      readMem mem ptr bytes.length = some bytes →
      utf8Valid bytes = true →
      bytes.length ≠ u64max →
      st.logs.length + 1 ≤ st.config.max_number_logs →
      st.total_log_length + bytes.length ≤ st.config.max_total_log_length →
      countC (log_utf8 st mem bytes.length ptr).2.ledger .base =
        countC st.ledger .base + 1) ∧
    (∀ (recover : List Nat → List Nat → Nat → Nat → Option (List Nat))
        (st : VMState) (mem : List Nat) (mPtr sigPtr v mc rid : Nat)
        (m sig : List Nat),
      readMem mem mPtr 32 = some m →
      readMem mem sigPtr 64 = some sig →
      countC (ecrecover recover st mem mPtr sigPtr v mc rid).2.ledger .base =
        countC st.ledger .base) := by
  refine ⟨?_, ?_, ?_⟩
  · intro hashFn st mem len ptr rid data hread
    have : sha256 hashFn st mem len ptr rid =
        (.ok (), writeReg (charge (charge (charge (charge (charge (charge
          (charge st .base 1) .read_memory_base 1) .read_memory_byte len)
          .sha256_base 1) .sha256_byte len) .write_register_base 1)
          .write_register_byte (hashFn data).length) rid (hashFn data)) := by
      simp [sha256, hread]
    rw [this]
    constructor
    · simp [writeReg, charge, List.append_assoc]
    · simp [writeReg, countC_append, countC_cons]
  · intro st mem ptr bytes hread hvalid hlen hcount htot
    rw [log_utf8_valid st mem ptr bytes hread hvalid hlen hcount htot]
    simp [countC_append, countC_cons]
  · intro recover st mem mPtr sigPtr v mc rid m sig hm hsig
    cases hr : recover m sig v mc <;>
      simp [ecrecover, hm, hsig, hr, writeReg, countC_append, countC_cons]

/-- Witness for C5 as amended: concrete sha256, log_utf8 and ecrecover
invocations with the base counts 1, 1 and 0 respectively. -/
theorem C5_witness :
    ((sha256 (fun _ => List.replicate 32 7)
        ⟨⟨100, 10, 100, 100, 100, 100, 10, 10⟩, [], [], 0, [], [], [], none⟩
        [1, 2] 2 0 0).2.ledger =
      [] ++ [(.base, 1), (.read_memory_base, 1), (.read_memory_byte, 2),
        (.sha256_base, 1), (.sha256_byte, 2), (.write_register_base, 1),
        (.write_register_byte, (List.replicate 32 7).length)] ∧
      countC (sha256 (fun _ => List.replicate 32 7)
        ⟨⟨100, 10, 100, 100, 100, 100, 10, 10⟩, [], [], 0, [], [], [], none⟩
        [1, 2] 2 0 0).2.ledger .base = countC [] .base + 1) ∧
    countC (log_utf8
      ⟨⟨100, 10, 100, 100, 100, 100, 10, 10⟩, [], [], 0, [], [], [], none⟩
      [104, 105] 2 0).2.ledger .base = countC [] .base + 1 ∧
    countC (ecrecover (fun _ _ _ _ => none)
      ⟨⟨100, 10, 100, 100, 100, 100, 10, 10⟩, [], [], 0, [], [], [], none⟩
      (List.replicate 96 0) 0 32 0 0 1).2.ledger .base = countC [] .base :=
  ⟨C5_base_charges.1 (fun _ => List.replicate 32 7) _ [1, 2] 2 0 0 [1, 2]
      (by rfl),
    C5_base_charges.2.1 _ [104, 105] 0 [104, 105] (by rfl) (by rfl)
      (by decide) (by decide) (by decide),
    C5_base_charges.2.2 (fun _ _ _ _ => none) _ (List.replicate 96 0) 0 32 0 0
      1 (List.replicate 32 0) (List.replicate 64 0) (by rfl) (by rfl)⟩

/-- Ledger delta of n single-byte charged memory reads. -/
def readSeq : Nat → List (ExtCosts × Nat)
  | 0 => []
  | n + 1 => (.read_memory_base, 1) :: (.read_memory_byte, 1) :: readSeq n

theorem countC_readSeq (n : Nat) (c : ExtCosts) :
    countC (readSeq n) c =
      if c = .read_memory_base then n
      else if c = .read_memory_byte then n else 0 := by
  induction n with
  | zero => simp [readSeq]
  | succ n ih =>
    by_cases h1 : c = .read_memory_base
    · subst h1; simp [readSeq, countC_cons, ih]; omega
    · by_cases h2 : c = .read_memory_byte
      · subst h2; simp [readSeq, countC_cons, ih]; omega
      · have h1b : ExtCosts.read_memory_base ≠ c := fun h => h1 h.symm
        have h2b : ExtCosts.read_memory_byte ≠ c := fun h => h2 h.symm
        simp [readSeq, countC_cons, ih, h1, h2, h1b, h2b]

/-- Success path of the sentinel byte scan: with the bytes of pre, all
nonzero, at ptr and a zero terminator after them, and enough allowance, the
scan returns the collected prefix and charges one read base and one read byte
per byte scanned, terminator included. -/
theorem nullScanUtf8_found (mem : List Nat) (pre : List Nat) :
    ∀ (st : VMState) (acc : List Nat) (p allow : Nat),
      pre.length ≤ allow →
      (∀ i, i < pre.length → mem[p + i]? = some (pre.getD i 0) ∧
        pre.getD i 0 ≠ 0) →
      mem[p + pre.length]? = some 0 →
      nullScanUtf8 mem st acc p allow =
        (.ok (acc.reverse ++ pre),
          { st with ledger := st.ledger ++ readSeq (pre.length + 1) }) := by
  induction pre with
  | nil =>
    intro st acc p allow _ _ hterm
    simp only [List.length_nil, Nat.add_zero] at hterm
    cases allow <;>
      simp [nullScanUtf8, readByteCharged, hterm, readSeq, charge]
  | cons b pre ih =>
    intro st acc p allow hallow hpre hterm
    have hb := hpre 0 (by simp)
    simp only [Nat.add_zero, List.getD_cons_zero] at hb
    cases allow with
    | zero => simp at hallow
    | succ a =>
      have hrec := ih (charge (charge st .read_memory_base 1)
          .read_memory_byte 1) (b :: acc) (p + 1) a
        (by simp at hallow; omega)
        (by
          intro i hi
          have := hpre (i + 1) (by simp; omega)
          simpa [Nat.add_comm, Nat.add_left_comm, Nat.add_assoc] using this)
        (by
          have : p + 1 + pre.length = p + (b :: pre).length := by
            simp; omega
          rw [this]; exact hterm)
      simp only [nullScanUtf8, readByteCharged, hb.1, Option.map_some']
      rw [if_neg hb.2]
      rw [hrec]
      simp [readSeq, charge, List.append_assoc]

/-- Failure path of the sentinel byte scan: when every byte within the
allowance plus the boundary byte is nonzero, the scan reads allowance plus
one bytes and fails with the running-total based TotalLogLengthExceeded
payload. -/
theorem nullScanUtf8_noTerm (mem : List Nat) :
    ∀ (allow : Nat) (st : VMState) (acc : List Nat) (p : Nat),
      (∀ i, i ≤ allow → ∃ b, mem[p + i]? = some b ∧ b ≠ 0) →
      nullScanUtf8 mem st acc p allow =
        (.error (.TotalLogLengthExceeded
          (st.total_log_length
            + (st.config.max_total_log_length - st.total_log_length) + 1)
          st.config.max_total_log_length),
          { st with ledger := st.ledger ++ readSeq (allow + 1) }) := by
  intro allow
  induction allow with
  | zero =>
    intro st acc p hmem
    obtain ⟨b, hb, hbne⟩ := hmem 0 (by omega)
    simp only [Nat.add_zero] at hb
    simp [nullScanUtf8, readByteCharged, hb, hbne, readSeq, charge]
  | succ a ih =>
    intro st acc p hmem
    obtain ⟨b, hb, hbne⟩ := hmem 0 (by omega)
    simp only [Nat.add_zero] at hb
    have hrec := ih (charge (charge st .read_memory_base 1)
        .read_memory_byte 1) (b :: acc) (p + 1)
      (by
        intro i hi
        have := hmem (i + 1) (by omega)
        simpa [Nat.add_comm, Nat.add_left_comm, Nat.add_assoc] using this)
    simp only [nullScanUtf8, readByteCharged, hb, Option.map_some']
    rw [if_neg hbne]
    rw [hrec]
    simp [readSeq, charge, List.append_assoc]

/-- Sentinel-length log_utf8, success path, as a full state equation: the
scanned prefix (terminator excluded) becomes the log line; the ledger gains
base, decoding base, one read base and read byte per scanned byte including
the terminator, decoding bytes for the prefix only, and the log charges. -/
theorem log_utf8_sentinel_ok (st : VMState) (mem : List Nat) (ptr : Nat)
    (pre : List Nat)
    (hpre : ∀ i, i < pre.length → mem[ptr + i]? = some (pre.getD i 0) ∧
      pre.getD i 0 ≠ 0)
    (hterm : mem[ptr + pre.length]? = some 0)
    (hallow : pre.length ≤
      st.config.max_total_log_length - st.total_log_length)
    (htot : st.total_log_length ≤ st.config.max_total_log_length)
    (hvalid : utf8Valid pre = true)
    (hcount : st.logs.length + 1 ≤ st.config.max_number_logs) :
    log_utf8 st mem u64max ptr =
      (.ok (), { st with
        ledger := st.ledger ++ [(.base, 1), (.utf8_decoding_base, 1)]
          ++ readSeq (pre.length + 1)
          ++ [(.utf8_decoding_byte, pre.length), (.log_base, 1),
            (.log_byte, pre.length)],
        logs := st.logs ++ [pre],
        total_log_length := st.total_log_length + pre.length }) := by
  have h1 : ¬ (st.logs.length + 1 > st.config.max_number_logs) := by omega
  have h2 : ¬ (st.total_log_length + pre.length >
      st.config.max_total_log_length) := by omega
  have hscan := nullScanUtf8_found mem pre
    (charge (charge st .base 1) .utf8_decoding_base 1) [] ptr
    (st.config.max_total_log_length - st.total_log_length) hallow hpre hterm
  simp only [log_utf8, if_pos rfl, charge_config, charge_total, charge_logs,
    if_neg h1]
  rw [hscan]
  simp [pushLog, h2, charge, List.append_assoc, hvalid]

/-- Sentinel-length log_utf8, failure path, as a full state equation: when no
terminator occurs within the remaining allowance, the call reads allowance
plus one bytes, charges base, decoding base and the reads only, and fails
with TotalLogLengthExceeded reporting limit plus one and the limit. -/
theorem log_utf8_sentinel_fail (st : VMState) (mem : List Nat) (ptr : Nat)
    (htot : st.total_log_length ≤ st.config.max_total_log_length)
    (hmem : ∀ i, i ≤ st.config.max_total_log_length - st.total_log_length →
      ∃ b, mem[ptr + i]? = some b ∧ b ≠ 0)
    (hcount : st.logs.length + 1 ≤ st.config.max_number_logs) :
    log_utf8 st mem u64max ptr =
      (.error (.TotalLogLengthExceeded (st.config.max_total_log_length + 1)
          st.config.max_total_log_length),
        { st with
          ledger := st.ledger ++ [(.base, 1), (.utf8_decoding_base, 1)]
            ++ readSeq
              ((st.config.max_total_log_length - st.total_log_length) + 1) }) := by
  have h1 : ¬ (st.logs.length + 1 > st.config.max_number_logs) := by omega
  have hscan := nullScanUtf8_noTerm mem
    (st.config.max_total_log_length - st.total_log_length)
    (charge (charge st .base 1) .utf8_decoding_base 1) [] ptr hmem
  have hpay : st.total_log_length
      + (st.config.max_total_log_length - st.total_log_length) + 1 =
      st.config.max_total_log_length + 1 := by omega
  simp only [log_utf8, if_pos rfl, charge_config, charge_total, charge_logs,
    if_neg h1]
  rw [hscan]
  simp [charge, List.append_assoc, hpay]

/-- C7: with the sentinel length, log_utf8 reads memory one byte at a time,
each read charged its own read base and read byte, so the read base count
equals the number of bytes scanned including the zero terminator when found;
the terminator is charged for the read but excluded from decoding and from
the logged string; and when no terminator occurs before the total log length
limit would be exceeded, the scan stops after reading allowance plus one
bytes (limit plus one from an empty log) and the call fails with
TotalLogLengthExceeded reporting limit plus one and the limit. -/
theorem C7_sentinel_scan :
    (∀ (st : VMState) (mem : List Nat) (ptr : Nat) (pre : List Nat),
      (∀ i, i < pre.length → mem[ptr + i]? = some (pre.getD i 0) ∧
        pre.getD i 0 ≠ 0) →
      mem[ptr + pre.length]? = some 0 →
      pre.length ≤ st.config.max_total_log_length - st.total_log_length →
      st.total_log_length ≤ st.config.max_total_log_length →
      utf8Valid pre = true →
      st.logs.length + 1 ≤ st.config.max_number_logs →
      (log_utf8 st mem u64max ptr).1 = .ok () ∧
      (log_utf8 st mem u64max ptr).2.logs = st.logs ++ [pre] ∧
      countC (log_utf8 st mem u64max ptr).2.ledger .read_memory_base =
        countC st.ledger .read_memory_base + (pre.length + 1) ∧
      countC (log_utf8 st mem u64max ptr).2.ledger .read_memory_byte =
        countC st.ledger .read_memory_byte + (pre.length + 1) ∧
      countC (log_utf8 st mem u64max ptr).2.ledger .utf8_decoding_byte =
        countC st.ledger .utf8_decoding_byte + pre.length ∧
      countC (log_utf8 st mem u64max ptr).2.ledger .log_byte =
        countC st.ledger .log_byte + pre.length) ∧
    (∀ (st : VMState) (mem : List Nat) (ptr : Nat),
      st.total_log_length ≤ st.config.max_total_log_length →
      (∀ i, i ≤ st.config.max_total_log_length - st.total_log_length →
        ∃ b, mem[ptr + i]? = some b ∧ b ≠ 0) →
      st.logs.length + 1 ≤ st.config.max_number_logs →
      (log_utf8 st mem u64max ptr).1 =
        .error (.TotalLogLengthExceeded (st.config.max_total_log_length + 1)
          st.config.max_total_log_length) ∧
      (log_utf8 st mem u64max ptr).2.logs = st.logs ∧
      countC (log_utf8 st mem u64max ptr).2.ledger .read_memory_base =
        countC st.ledger .read_memory_base
          + ((st.config.max_total_log_length - st.total_log_length) + 1) ∧
      countC (log_utf8 st mem u64max ptr).2.ledger .utf8_decoding_byte =
        countC st.ledger .utf8_decoding_byte ∧
      countC (log_utf8 st mem u64max ptr).2.ledger .log_base =
        countC st.ledger .log_base) := by
  constructor
  · intro st mem ptr pre hpre hterm hallow htot hvalid hcount
    rw [log_utf8_sentinel_ok st mem ptr pre hpre hterm hallow htot hvalid
      hcount]
    simp [countC_append, countC_readSeq, countC_cons]
  · intro st mem ptr htot hmem hcount
    rw [log_utf8_sentinel_fail st mem ptr htot hmem hcount]
    simp [countC_append, countC_readSeq, countC_cons]

/-- Witness for C7: the success half on memory 104, 105, 0 (line "hi", three
bytes scanned), the failure half on a limit of 3 with five nonzero-prefixed
bytes 9, 9, 9, 9, 0 (four bytes scanned, error reports 4 and 3). -/
theorem C7_witness :
    ((log_utf8 ⟨⟨100, 10, 100, 100, 100, 100, 10, 10⟩, [], [], 0, [], [], [],
        none⟩ [104, 105, 0] u64max 0).1 = .ok () ∧
      (log_utf8 ⟨⟨100, 10, 100, 100, 100, 100, 10, 10⟩, [], [], 0, [], [], [],
        none⟩ [104, 105, 0] u64max 0).2.logs = [] ++ [[104, 105]] ∧
      countC (log_utf8 ⟨⟨100, 10, 100, 100, 100, 100, 10, 10⟩, [], [], 0, [],
        [], [], none⟩ [104, 105, 0] u64max 0).2.ledger .read_memory_base =
        countC [] .read_memory_base + (2 + 1) ∧
      countC (log_utf8 ⟨⟨100, 10, 100, 100, 100, 100, 10, 10⟩, [], [], 0, [],
        [], [], none⟩ [104, 105, 0] u64max 0).2.ledger .read_memory_byte =
        countC [] .read_memory_byte + (2 + 1) ∧
      countC (log_utf8 ⟨⟨100, 10, 100, 100, 100, 100, 10, 10⟩, [], [], 0, [],
        [], [], none⟩ [104, 105, 0] u64max 0).2.ledger .utf8_decoding_byte =
        countC [] .utf8_decoding_byte + 2 ∧
      countC (log_utf8 ⟨⟨100, 10, 100, 100, 100, 100, 10, 10⟩, [], [], 0, [],
        [], [], none⟩ [104, 105, 0] u64max 0).2.ledger .log_byte =
        countC [] .log_byte + 2) ∧
    ((log_utf8 ⟨⟨3, 10, 100, 100, 100, 100, 10, 10⟩, [], [], 0, [], [], [],
        none⟩ [9, 9, 9, 9, 0] u64max 0).1 =
        .error (.TotalLogLengthExceeded (3 + 1) 3) ∧
      (log_utf8 ⟨⟨3, 10, 100, 100, 100, 100, 10, 10⟩, [], [], 0, [], [], [],
        none⟩ [9, 9, 9, 9, 0] u64max 0).2.logs = [] ∧
      countC (log_utf8 ⟨⟨3, 10, 100, 100, 100, 100, 10, 10⟩, [], [], 0, [],
        [], [], none⟩ [9, 9, 9, 9, 0] u64max 0).2.ledger .read_memory_base =
        countC [] .read_memory_base + ((3 - 0) + 1) ∧
      countC (log_utf8 ⟨⟨3, 10, 100, 100, 100, 100, 10, 10⟩, [], [], 0, [],
        [], [], none⟩ [9, 9, 9, 9, 0] u64max 0).2.ledger .utf8_decoding_byte =
        countC [] .utf8_decoding_byte ∧
      countC (log_utf8 ⟨⟨3, 10, 100, 100, 100, 100, 10, 10⟩, [], [], 0, [],
        [], [], none⟩ [9, 9, 9, 9, 0] u64max 0).2.ledger .log_base =
        countC [] .log_base) :=
  ⟨C7_sentinel_scan.1 _ [104, 105, 0] 0 [104, 105] (by decide) (by rfl)
      (by decide) (by decide) (by rfl) (by decide),
    C7_sentinel_scan.2 _ [9, 9, 9, 9, 0] 0 (by decide)
      (by
        intro i hi
        interval_cases i <;> exact ⟨9, rfl, by decide⟩)
      (by decide)⟩

theorem depsSum_charge (st : VMState) (c : ExtCosts) (n : Nat)
    (ids : List Nat) :
    depsSum (charge st c n) ids = depsSum st ids := by
  induction ids with
  | nil => rfl
  | cons i r ih => simp [depsSum, ih, charge_promises]

/-- C1: every configured limit is an inclusive ceiling evaluated on the
prospective total: the host call with prospective size exactly the limit L
succeeds, and with prospective size L plus one fails with the named exceeded
error carrying exactly the offending value L plus one and the limit L; in
order: storage key length, storage value length, total log length,
returned-value length, contract code size, promise count, and join
dependency count. -/
theorem C1_inclusive_limits :
    (∀ (st : VMState) (mem : List Nat) (ptr : Nat) (key : List Nat),
      readMem mem ptr key.length = some key →
      (key.length = st.config.max_length_storage_key →
        (storage_has_key st mem key.length ptr).1 =
          .ok (st.storage.find? (fun p => p.1 = key)).isSome) ∧
      (key.length = st.config.max_length_storage_key + 1 →
        (storage_has_key st mem key.length ptr).1 =
          .error (.KeyLengthExceeded (st.config.max_length_storage_key + 1)
            st.config.max_length_storage_key))) ∧
    (∀ (st : VMState) (mem : List Nat) (kPtr vPtr rid : Nat)
        (key value : List Nat),
      readMem mem kPtr key.length = some key →
      readMem mem vPtr value.length = some value →
      key.length ≤ st.config.max_length_storage_key →
      (value.length = st.config.max_length_storage_value →
        (storage_write st mem key.length kPtr value.length vPtr rid).1 =
          .ok (st.storage.find? (fun p => p.1 = key)).isSome) ∧
      (value.length = st.config.max_length_storage_value + 1 →
        (storage_write st mem key.length kPtr value.length vPtr rid).1 =
          .error (.ValueLengthExceeded
            (st.config.max_length_storage_value + 1)
            st.config.max_length_storage_value))) ∧
    (∀ (st : VMState) (mem : List Nat) (ptr : Nat) (bytes : List Nat),
      readMem mem ptr bytes.length = some bytes →
      utf8Valid bytes = true →
      bytes.length ≠ u64max →
      st.logs.length + 1 ≤ st.config.max_number_logs →
      (st.total_log_length + bytes.length =
          st.config.max_total_log_length →
        (log_utf8 st mem bytes.length ptr).1 = .ok ()) ∧
      (st.total_log_length + bytes.length =
          st.config.max_total_log_length + 1 →
        (log_utf8 st mem bytes.length ptr).1 =
          .error (.TotalLogLengthExceeded
            (st.config.max_total_log_length + 1)
            st.config.max_total_log_length))) ∧
    (∀ (st : VMState) (mem : List Nat) (ptr : Nat) (v : List Nat),
      readMem mem ptr v.length = some v →
      (v.length = st.config.max_length_returned_data →
        (value_return st mem v.length ptr).1 = .ok ()) ∧
      (v.length = st.config.max_length_returned_data + 1 →
        (value_return st mem v.length ptr).1 =
          .error (.ReturnedValueLengthExceeded
            (st.config.max_length_returned_data + 1)
            st.config.max_length_returned_data))) ∧
    (∀ (st : VMState) (mem : List Nat) (ptr idx : Nat) (code : List Nat)
        (pr : Promise),
      readMem mem ptr code.length = some code →
      st.promises[idx]? = some pr →
      (code.length = st.config.max_contract_size →
        (promise_batch_action_deploy_contract st mem idx code.length
          ptr).1 = .ok ()) ∧
      (code.length = st.config.max_contract_size + 1 →
        (promise_batch_action_deploy_contract st mem idx code.length
          ptr).1 =
          .error (.ContractSizeExceeded (st.config.max_contract_size + 1)
            st.config.max_contract_size))) ∧
    (∀ (st : VMState) (mem : List Nat) (ptr : Nat) (acct : List Nat),
      readMem mem ptr acct.length = some acct →
      (st.promises.length + 1 =
          st.config.max_promises_per_function_call_action →
        (promise_batch_create st mem acct.length ptr).1 =
          .ok st.promises.length) ∧
      (st.promises.length =
          st.config.max_promises_per_function_call_action →
        (promise_batch_create st mem acct.length ptr).1 =
          .error (.NumberPromisesExceeded
            (st.config.max_promises_per_function_call_action + 1)
            st.config.max_promises_per_function_call_action))) ∧
    (∀ (st : VMState) (ids : List Nat) (s : Nat),
      depsSum st ids = .ok s →
      (s = st.config.max_number_input_data_dependencies →
        (promise_and st ids).1 = .ok st.promises.length) ∧
      (s = st.config.max_number_input_data_dependencies + 1 →
        (promise_and st ids).1 =
          .error (.NumberInputDataDependenciesExceeded
            (st.config.max_number_input_data_dependencies + 1)
            st.config.max_number_input_data_dependencies))) := by
  refine ⟨?_, ?_, ?_, ?_, ?_, ?_, ?_⟩
  · intro st mem ptr key hread
    refine ⟨fun heq => ?_, fun heq => ?_⟩
    · have h1 : ¬ (st.config.max_length_storage_key < key.length) := by omega
      simp [storage_has_key, hread, h1]
    · have h1 : st.config.max_length_storage_key < key.length := by omega
      simp [storage_has_key, hread, h1]
      omega
  · intro st mem kPtr vPtr rid key value hk hv hkey
    refine ⟨fun heq => ?_, fun heq => ?_⟩
    · have h1 : ¬ (st.config.max_length_storage_key < key.length) := by omega
      have h2 : ¬ (st.config.max_length_storage_value < value.length) := by
        omega
      simp [storage_write, hk, hv, h1, h2]
    · have h1 : ¬ (st.config.max_length_storage_key < key.length) := by omega
      have h2 : st.config.max_length_storage_value < value.length := by omega
      simp [storage_write, hk, hv, h1, h2]
      omega
  · intro st mem ptr bytes hread hvalid hlen hcount
    refine ⟨fun heq => ?_, fun heq => ?_⟩
    · rw [log_utf8_valid st mem ptr bytes hread hvalid hlen hcount (by omega)]
    · rw [log_utf8_too_long st mem ptr bytes.length hlen hcount (by omega)]
      simp
      omega
  · intro st mem ptr v hread
    refine ⟨fun heq => ?_, fun heq => ?_⟩
    · have h1 : ¬ (st.config.max_length_returned_data < v.length) := by omega
      simp [value_return, hread, h1]
    · have h1 : st.config.max_length_returned_data < v.length := by omega
      simp [value_return, hread, h1]
      omega
  · intro st mem ptr idx code pr hread hpr
    refine ⟨fun heq => ?_, fun heq => ?_⟩
    · have h1 : ¬ (st.config.max_contract_size < code.length) := by omega
      simp [promise_batch_action_deploy_contract, hread, h1, hpr]
    · have h1 : st.config.max_contract_size < code.length := by omega
      simp [promise_batch_action_deploy_contract, hread, h1]
      omega
  · intro st mem ptr acct hread
    refine ⟨fun heq => ?_, fun heq => ?_⟩
    · have h1 : ¬ (st.config.max_promises_per_function_call_action <
          st.promises.length + 1) := by omega
      simp [promise_batch_create, hread, h1]
    · have h1 : st.config.max_promises_per_function_call_action <
          st.promises.length + 1 := by omega
      simp [promise_batch_create, hread, h1]
      omega
  · intro st ids s hsum
    refine ⟨fun heq => ?_, fun heq => ?_⟩
    · have h1 : ¬ (st.config.max_number_input_data_dependencies < s) := by
        omega
      simp [promise_and, depsSum_charge, hsum, h1]
    · have h1 : st.config.max_number_input_data_dependencies < s := by omega
      simp [promise_and, depsSum_charge, hsum, h1]
      omega

/-- Witness for C1: all seven limits instantiated at the ceiling 2 (total
log length 3), success at exactly the limit and the named error with payload
limit plus one and limit when exceeding by one. -/
theorem C1_witness :
    (storage_has_key ⟨⟨3, 10, 2, 2, 2, 2, 2, 2⟩, [], [], 0, [], [], [], none⟩
      [7, 8] 2 0).1 = .ok false ∧
    (storage_has_key ⟨⟨3, 10, 2, 2, 2, 2, 2, 2⟩, [], [], 0, [], [], [], none⟩
      [7, 8, 9] 3 0).1 = .error (.KeyLengthExceeded 3 2) ∧
    (storage_write ⟨⟨3, 10, 2, 2, 2, 2, 2, 2⟩, [], [], 0, [], [], [], none⟩
      [7, 1, 2, 3] 1 0 2 1 0).1 = .ok false ∧
    (storage_write ⟨⟨3, 10, 2, 2, 2, 2, 2, 2⟩, [], [], 0, [], [], [], none⟩
      [7, 1, 2, 3] 1 0 3 1 0).1 = .error (.ValueLengthExceeded 3 2) ∧
    (log_utf8 ⟨⟨3, 10, 2, 2, 2, 2, 2, 2⟩, [], [], 0, [], [], [], none⟩
      [104, 105, 106] 3 0).1 = .ok () ∧
    (log_utf8 ⟨⟨3, 10, 2, 2, 2, 2, 2, 2⟩, [], [], 0, [], [], [], none⟩
      [97, 98, 99, 100] 4 0).1 = .error (.TotalLogLengthExceeded 4 3) ∧
    (value_return ⟨⟨3, 10, 2, 2, 2, 2, 2, 2⟩, [], [], 0, [], [], [], none⟩
      [1, 2] 2 0).1 = .ok () ∧
    (value_return ⟨⟨3, 10, 2, 2, 2, 2, 2, 2⟩, [], [], 0, [], [], [], none⟩
      [1, 2, 3] 3 0).1 = .error (.ReturnedValueLengthExceeded 3 2) ∧
    (promise_batch_action_deploy_contract
      ⟨⟨3, 10, 2, 2, 2, 2, 2, 2⟩, [], [], 0, [], [⟨1, []⟩], [], none⟩
      [1, 2] 0 2 0).1 = .ok () ∧
    (promise_batch_action_deploy_contract
      ⟨⟨3, 10, 2, 2, 2, 2, 2, 2⟩, [], [], 0, [], [⟨1, []⟩], [], none⟩
      [1, 2, 3] 0 3 0).1 = .error (.ContractSizeExceeded 3 2) ∧
    (promise_batch_create
      ⟨⟨3, 10, 2, 2, 2, 2, 2, 2⟩, [], [], 0, [], [⟨1, []⟩], [], none⟩
      [5] 1 0).1 = .ok 1 ∧
    (promise_batch_create
      ⟨⟨3, 10, 2, 2, 2, 2, 2, 2⟩, [], [], 0, [], [⟨1, []⟩, ⟨1, []⟩], [],
        none⟩ [5] 1 0).1 = .error (.NumberPromisesExceeded 3 2) ∧
    (promise_and
      ⟨⟨3, 10, 2, 2, 2, 2, 2, 2⟩, [], [], 0, [], [⟨1, []⟩], [], none⟩
      [0, 0]).1 = .ok 1 ∧
    (promise_and
      ⟨⟨3, 10, 2, 2, 2, 2, 2, 2⟩, [], [], 0, [], [⟨1, []⟩], [], none⟩
      [0, 0, 0]).1 = .error (.NumberInputDataDependenciesExceeded 3 2) :=
  ⟨(C1_inclusive_limits.1 _ [7, 8] 0 [7, 8] rfl).1 rfl,
    (C1_inclusive_limits.1 _ [7, 8, 9] 0 [7, 8, 9] rfl).2 rfl,
    (C1_inclusive_limits.2.1 _ [7, 1, 2, 3] 0 1 0 [7] [1, 2] rfl rfl
      (by decide)).1 rfl,
    (C1_inclusive_limits.2.1 _ [7, 1, 2, 3] 0 1 0 [7] [1, 2, 3] rfl rfl
      (by decide)).2 rfl,
    (C1_inclusive_limits.2.2.1 _ [104, 105, 106] 0 [104, 105, 106] rfl rfl
      (by decide) (by decide)).1 rfl,
    (C1_inclusive_limits.2.2.1 _ [97, 98, 99, 100] 0 [97, 98, 99, 100] rfl
      rfl (by decide) (by decide)).2 rfl,
    (C1_inclusive_limits.2.2.2.1 _ [1, 2] 0 [1, 2] rfl).1 rfl,
    (C1_inclusive_limits.2.2.2.1 _ [1, 2, 3] 0 [1, 2, 3] rfl).2 rfl,
    (C1_inclusive_limits.2.2.2.2.1 ⟨⟨3, 10, 2, 2, 2, 2, 2, 2⟩, [], [], 0, [], [⟨1, []⟩], [], none⟩ [1, 2] 0 0 [1, 2] ⟨1, []⟩ rfl
      rfl).1 rfl,
    (C1_inclusive_limits.2.2.2.2.1 ⟨⟨3, 10, 2, 2, 2, 2, 2, 2⟩, [], [], 0, [], [⟨1, []⟩], [], none⟩ [1, 2, 3] 0 0 [1, 2, 3] ⟨1, []⟩ rfl
      rfl).2 rfl,
    (C1_inclusive_limits.2.2.2.2.2.1 _ [5] 0 [5] rfl).1 rfl,
    (C1_inclusive_limits.2.2.2.2.2.1 _ [5] 0 [5] rfl).2 rfl,
    (C1_inclusive_limits.2.2.2.2.2.2 ⟨⟨3, 10, 2, 2, 2, 2, 2, 2⟩, [], [], 0, [], [⟨1, []⟩], [], none⟩ [0, 0] 2 rfl).1 rfl,
    (C1_inclusive_limits.2.2.2.2.2.2 ⟨⟨3, 10, 2, 2, 2, 2, 2, 2⟩, [], [], 0, [], [⟨1, []⟩], [], none⟩ [0, 0, 0] 3 rfl).2 rfl⟩

/-- Iterates k successive self-joins of a promise handle via promise_and,
tracking the current handle. -/
def selfJoins (st : VMState) (h : Nat) : Nat → VMState × Nat
  | 0 => (st, h)
  | k + 1 =>
    let p := selfJoins st h k
    match promise_and p.1 [p.2, p.2] with
    | (.ok h2, st2) => (st2, h2)
    | (.error _, st2) => (st2, p.2)

/-- After k self-joins of a plain promise (dependency count 1), as long as
2 to the k stays within the configured ceiling, the resulting handle's
stored dependency count is exactly 2 to the k. -/
theorem selfJoins_deps (st : VMState) (h : Nat) (pr : Promise)
    (hpr : st.promises[h]? = some pr) (hdep : pr.deps = 1) :
    ∀ k, 2 ^ k ≤ st.config.max_number_input_data_dependencies →
      ((selfJoins st h k).1.promises[(selfJoins st h k).2]?).map
          Promise.deps = some (2 ^ k) ∧
      (selfJoins st h k).1.config = st.config := by
  intro k
  induction k with
  | zero =>
    intro _
    simp [selfJoins, hpr, hdep]
  | succ k ih =>
    intro hmax
    have hk : 2 ^ k ≤ st.config.max_number_input_data_dependencies := by
      have : 2 ^ k ≤ 2 ^ (k + 1) :=
        Nat.pow_le_pow_right (by omega) (by omega)
      omega
    obtain ⟨hdeps, hcfg⟩ := ih hk
    obtain ⟨prk, hprk, hprkdeps⟩ :
        ∃ prk, (selfJoins st h k).1.promises[(selfJoins st h k).2]? =
          some prk ∧ prk.deps = 2 ^ k := by
      cases hg : (selfJoins st h k).1.promises[(selfJoins st h k).2]? with
      | none => rw [hg] at hdeps; simp at hdeps
      | some q =>
        rw [hg] at hdeps
        simp at hdeps
        exact ⟨q, rfl, hdeps⟩
    have hpow : 2 ^ (k + 1) = 2 ^ k + 2 ^ k := by
      rw [pow_succ]; omega
    have hsum : depsSum (selfJoins st h k).1 [(selfJoins st h k).2,
        (selfJoins st h k).2] = .ok (2 ^ (k + 1)) := by
      simp [depsSum, hprk, hprkdeps, Except.map, hpow]
    have hcond :
        ¬ (((selfJoins st h k).1.config).max_number_input_data_dependencies <
          2 ^ (k + 1)) := by
      rw [hcfg]; omega
    have hand : promise_and (selfJoins st h k).1
        [(selfJoins st h k).2, (selfJoins st h k).2] =
        (.ok (selfJoins st h k).1.promises.length,
          { (selfJoins st h k).1 with
            ledger := (selfJoins st h k).1.ledger ++ [(.base, 1)],
            promises := (selfJoins st h k).1.promises
              ++ [⟨2 ^ (k + 1), []⟩] }) := by
      simp only [promise_and, depsSum_charge, hsum, charge_config]
      rw [if_neg hcond]
      simp [charge]
    constructor
    · show ((selfJoins st h (k + 1)).1.promises[(selfJoins st h
        (k + 1)).2]?).map Promise.deps = some (2 ^ (k + 1))
      simp only [selfJoins]
      rw [hand]
      simp [List.getElem?_concat_length]
    · show (selfJoins st h (k + 1)).1.config = st.config
      simp only [selfJoins]
      rw [hand]
      simp [hcfg]

/-- C2: promise_and assigns the new handle a dependency count equal to the
sum of each operand's own stored count (1 for a plain promise created by
promise_batch_create, the stored count for a prior join), so that after k
successive self-joins of a plain promise the count is 2 to the k; a join
whose summed count equals the configured ceiling succeeds, and one whose sum
exceeds it by one fails with NumberInputDataDependenciesExceeded reporting
that sum and the limit. -/
theorem C2_join_dependency_counts :
    (∀ (st : VMState) (mem : List Nat) (ptr : Nat) (acct : List Nat),
      readMem mem ptr acct.length = some acct →
      st.promises.length + 1 ≤
        st.config.max_promises_per_function_call_action →
      (promise_batch_create st mem acct.length ptr).1 =
        .ok st.promises.length ∧
      (promise_batch_create st mem acct.length ptr).2.promises =
        st.promises ++ [⟨1, []⟩]) ∧
    (∀ (st : VMState) (ids : List Nat) (s : Nat),
      depsSum st ids = .ok s →
      s ≤ st.config.max_number_input_data_dependencies →
      promise_and st ids =
        (.ok st.promises.length,
          { st with
            ledger := st.ledger ++ [(.base, 1)],
            promises := st.promises ++ [⟨s, []⟩] })) ∧
    (∀ (st : VMState) (h k : Nat) (pr : Promise),
      st.promises[h]? = some pr →
      pr.deps = 1 →
      2 ^ k ≤ st.config.max_number_input_data_dependencies →
      ((selfJoins st h k).1.promises[(selfJoins st h k).2]?).map
        Promise.deps = some (2 ^ k)) ∧
    (∀ (st : VMState) (ids : List Nat) (s : Nat),
      depsSum st ids = .ok s →
      (s = st.config.max_number_input_data_dependencies →
        (promise_and st ids).1 = .ok st.promises.length) ∧
      (s = st.config.max_number_input_data_dependencies + 1 →
        (promise_and st ids).1 =
          .error (.NumberInputDataDependenciesExceeded
            (st.config.max_number_input_data_dependencies + 1)
            st.config.max_number_input_data_dependencies))) := by
  refine ⟨?_, ?_, ?_, ?_⟩
  · intro st mem ptr acct hread hcnt
    have h1 : ¬ (st.config.max_promises_per_function_call_action <
        st.promises.length + 1) := by omega
    constructor <;> simp [promise_batch_create, hread, h1]
  · intro st ids s hsum hle
    have h1 : ¬ (st.config.max_number_input_data_dependencies < s) := by
      omega
    simp only [promise_and, depsSum_charge, hsum, charge_config]
    rw [if_neg h1]
    simp [charge]
  · intro st h k pr hpr hdep hmax
    exact (selfJoins_deps st h pr hpr hdep k hmax).1
  · intro st ids s hsum
    refine ⟨fun heq => ?_, fun heq => ?_⟩
    · have h1 : ¬ (st.config.max_number_input_data_dependencies < s) := by
        omega
      simp [promise_and, depsSum_charge, hsum, h1]
    · have h1 : st.config.max_number_input_data_dependencies < s := by omega
      simp [promise_and, depsSum_charge, hsum, h1]
      omega

/-- Witness for C2: with a single plain promise under a dependency ceiling of
4, batch creation appends a count-1 record, a two-way self-join doubles the
count, two nested self-joins give count 4, a join summing to exactly 4
succeeds, and a sum of 5 fails reporting 5 and 4. -/
theorem C2_witness :
    ((promise_batch_create
        ⟨⟨3, 10, 2, 2, 2, 2, 10, 4⟩, [], [], 0, [], [], [], none⟩
        [5] 1 0).1 = .ok 0 ∧
      (promise_batch_create
        ⟨⟨3, 10, 2, 2, 2, 2, 10, 4⟩, [], [], 0, [], [], [], none⟩
        [5] 1 0).2.promises = [] ++ [⟨1, []⟩]) ∧
    promise_and ⟨⟨3, 10, 2, 2, 2, 2, 10, 4⟩, [], [], 0, [], [⟨1, []⟩], [],
        none⟩ [0, 0] =
      (.ok 1, { (⟨⟨3, 10, 2, 2, 2, 2, 10, 4⟩, [], [], 0, [], [⟨1, []⟩], [],
          none⟩ : VMState) with
        ledger := [] ++ [(.base, 1)],
        promises := [⟨1, []⟩] ++ [⟨2, []⟩] }) ∧
    ((selfJoins ⟨⟨3, 10, 2, 2, 2, 2, 10, 4⟩, [], [], 0, [], [⟨1, []⟩], [],
        none⟩ 0 2).1.promises[(selfJoins
        ⟨⟨3, 10, 2, 2, 2, 2, 10, 4⟩, [], [], 0, [], [⟨1, []⟩], [], none⟩
        0 2).2]?).map Promise.deps = some (2 ^ 2) ∧
    (promise_and ⟨⟨3, 10, 2, 2, 2, 2, 10, 4⟩, [], [], 0, [],
      [⟨1, []⟩], [], none⟩ [0, 0, 0, 0]).1 = .ok 1 ∧
    (promise_and ⟨⟨3, 10, 2, 2, 2, 2, 10, 4⟩, [], [], 0, [],
      [⟨1, []⟩], [], none⟩ [0, 0, 0, 0, 0]).1 =
      .error (.NumberInputDataDependenciesExceeded 5 4) :=
  ⟨C2_join_dependency_counts.1 _ [5] 0 [5] rfl (by decide),
    C2_join_dependency_counts.2.1
      ⟨⟨3, 10, 2, 2, 2, 2, 10, 4⟩, [], [], 0, [], [⟨1, []⟩], [], none⟩
      [0, 0] 2 rfl (by decide),
    C2_join_dependency_counts.2.2.1
      ⟨⟨3, 10, 2, 2, 2, 2, 10, 4⟩, [], [], 0, [], [⟨1, []⟩], [], none⟩
      0 2 ⟨1, []⟩ rfl rfl (by decide),
    (C2_join_dependency_counts.2.2.2
      ⟨⟨3, 10, 2, 2, 2, 2, 10, 4⟩, [], [], 0, [], [⟨1, []⟩], [], none⟩
      [0, 0, 0, 0] 4 rfl).1 rfl,
    (C2_join_dependency_counts.2.2.2
      ⟨⟨3, 10, 2, 2, 2, 2, 10, 4⟩, [], [], 0, [], [⟨1, []⟩], [], none⟩
      [0, 0, 0, 0, 0] 5 rfl).2 rfl⟩

theorem readReg_writeReg (st : VMState) (id : Nat) (v : List Nat) :
    readReg (writeReg st id v) id = some v := by
  simp [readReg, writeReg]

/-- C8: for every well-formed (64-byte signature, 32-byte public key) input,
ed25519_verify and sr25519_verify succeed and write a single byte to the
output register, 1 when the signature is valid for the message and key and 0
otherwise; malformed signature or public key lengths are errors. -/
theorem C8_signature_verify_boolean_byte :
    (∀ (validSig : List Nat → List Nat → List Nat → Bool) (st : VMState)
        (mem : List Nat) (sl sp ml mp pl pp rid : Nat) (sig msg pk : List Nat),
      readMem mem sp sl = some sig →
      readMem mem mp ml = some msg →
      readMem mem pp pl = some pk →
      sig.length = 64 →
      pk.length = 32 →
      (ed25519_verify validSig st mem sl sp ml mp pl pp rid).1 = .ok () ∧
      readReg (ed25519_verify validSig st mem sl sp ml mp pl pp rid).2 rid =
        some [if validSig sig msg pk then 1 else 0] ∧
      (sr25519_verify validSig st mem sl sp ml mp pl pp rid).1 = .ok () ∧
      readReg (sr25519_verify validSig st mem sl sp ml mp pl pp rid).2 rid =
        some [if validSig sig msg pk then 1 else 0]) ∧
    (∀ (validSig : List Nat → List Nat → List Nat → Bool) (st : VMState)
        (mem : List Nat) (sl sp ml mp pl pp rid : Nat) (sig msg pk : List Nat),
      readMem mem sp sl = some sig →
      readMem mem mp ml = some msg →
      readMem mem pp pl = some pk →
      (sig.length ≠ 64 →
        (ed25519_verify validSig st mem sl sp ml mp pl pp rid).1 =
          .error (.InvalidSignatureLength sig.length)) ∧
      (sig.length = 64 → pk.length ≠ 32 →
        (ed25519_verify validSig st mem sl sp ml mp pl pp rid).1 =
          .error (.InvalidPublicKeyLength pk.length))) := by
  constructor
  · intro validSig st mem sl sp ml mp pl pp rid sig msg pk hs hm hp hsl hpl
    refine ⟨?_, ?_, ?_, ?_⟩ <;>
      simp [ed25519_verify, sr25519_verify, hs, hm, hp, hsl, hpl,
        readReg_writeReg]
  · intro validSig st mem sl sp ml mp pl pp rid sig msg pk hs hm hp
    refine ⟨fun hne => ?_, fun hsl hne => ?_⟩
    · simp [ed25519_verify, hs, hm, hp, hne]
    · simp [ed25519_verify, hs, hm, hp, hsl, hne]

/-- Witness for C8: a length-64 signature of ones and length-32 key, with a
verifier accepting exactly that signature (byte 1 written) and a verifier
accepting nothing (byte 0 written); a 63-byte signature errors, as does a
31-byte public key. -/
theorem C8_witness :
    ((ed25519_verify (fun _ _ _ => true)
        ⟨⟨3, 10, 2, 2, 2, 2, 10, 4⟩, [], [], 0, [], [], [], none⟩
        (List.replicate 96 1) 64 0 0 0 32 64 0).1 = .ok () ∧
      readReg (ed25519_verify (fun _ _ _ => true)
        ⟨⟨3, 10, 2, 2, 2, 2, 10, 4⟩, [], [], 0, [], [], [], none⟩
        (List.replicate 96 1) 64 0 0 0 32 64 0).2 0 = some [1] ∧
      (sr25519_verify (fun _ _ _ => true)
        ⟨⟨3, 10, 2, 2, 2, 2, 10, 4⟩, [], [], 0, [], [], [], none⟩
        (List.replicate 96 1) 64 0 0 0 32 64 0).1 = .ok () ∧
      readReg (sr25519_verify (fun _ _ _ => true)
        ⟨⟨3, 10, 2, 2, 2, 2, 10, 4⟩, [], [], 0, [], [], [], none⟩
        (List.replicate 96 1) 64 0 0 0 32 64 0).2 0 = some [1]) ∧
    readReg (ed25519_verify (fun _ _ _ => false)
      ⟨⟨3, 10, 2, 2, 2, 2, 10, 4⟩, [], [], 0, [], [], [], none⟩
      (List.replicate 96 1) 64 0 0 0 32 64 0).2 0 = some [0] ∧
    (ed25519_verify (fun _ _ _ => true)
      ⟨⟨3, 10, 2, 2, 2, 2, 10, 4⟩, [], [], 0, [], [], [], none⟩
      (List.replicate 96 1) 63 0 0 0 32 64 0).1 =
      .error (.InvalidSignatureLength 63) ∧
    (ed25519_verify (fun _ _ _ => true)
      ⟨⟨3, 10, 2, 2, 2, 2, 10, 4⟩, [], [], 0, [], [], [], none⟩
      (List.replicate 96 1) 64 0 0 0 31 64 0).1 =
      .error (.InvalidPublicKeyLength 31) :=
  ⟨C8_signature_verify_boolean_byte.1 (fun _ _ _ => true) _
      (List.replicate 96 1) 64 0 0 0 32 64 0 (List.replicate 64 1)
      (List.replicate 0 1) (List.replicate 32 1) (by rfl) (by rfl) (by rfl)
      (by decide) (by decide),
    ((C8_signature_verify_boolean_byte.1 (fun _ _ _ => false) _
      (List.replicate 96 1) 64 0 0 0 32 64 0 (List.replicate 64 1)
      (List.replicate 0 1) (List.replicate 32 1) (by rfl) (by rfl) (by rfl)
      (by decide) (by decide)).2.1 : _),
    ((C8_signature_verify_boolean_byte.2 (fun _ _ _ => true) _
      (List.replicate 96 1) 63 0 0 0 32 64 0 (List.replicate 63 1)
      (List.replicate 0 1) (List.replicate 32 1) (by rfl) (by rfl)
      (by rfl)).1 (by decide) : _),
    ((C8_signature_verify_boolean_byte.2 (fun _ _ _ => true) _
      (List.replicate 96 1) 64 0 0 0 31 64 0 (List.replicate 64 1)
      (List.replicate 0 1) (List.replicate 31 1) (by rfl) (by rfl)
      (by rfl)).2 (by decide) (by decide) : _)⟩

/-- A nibble, the branching index of the state trie. -/
abbrev Nib := Fin 16

/-- Modelled from the spec: the structural state trie of the proof subsystem
(section 3 Proof Node, section 4.6 generation path); the trie implementation
consumed by this repository is not under src.  Children of a branch are
indexed by nibble; empty marks an absent subtree. -/
inductive Trie where
  | empty
  | leaf (suffix : List Nib) (value : List Nat)
  | ext (suffix : List Nib) (child : Trie)
  | branch (cs : Nib → Trie) (val : Option (List Nat))

/-- Looks a key up in the structural trie. -/
def lookupT : Trie → List Nib → Option (List Nat)
  | .empty, _ => none
  | .leaf s v, k => if k = s then some v else none
  | .ext s c, k =>
    if k.take s.length = s then lookupT c (k.drop s.length) else none
  | .branch _ v, [] => v
  | .branch cs _, i :: k => lookupT (cs i) k

/-- Longest common prefix of two keys. -/
def lcp2 : List Nib → List Nib → List Nib
  | x :: a, y :: b => if x = y then x :: lcp2 a b else []
  | _, _ => []

/-- Common prefix of a nonempty list of keys (folded lcp2). -/
def lcpAll : List (List Nib) → List Nib
  | [] => []
  | k :: ks => ks.foldl lcp2 k

/-- Drops the first n nibbles of every key. -/
def stripPre (n : Nat) (kvs : List (List Nib × List Nat)) :
    List (List Nib × List Nat) :=
  kvs.map (fun e => (e.1.drop n, e.2))

/-- Entries whose key starts with nibble i, with that nibble dropped. -/
def groupNib (i : Nib) (kvs : List (List Nib × List Nat)) :
    List (List Nib × List Nat) :=
  kvs.filterMap (fun e =>
    match e.1 with
    | [] => none
    | j :: k => if j = i then some (k, e.2) else none)

/-- Association-list lookup by key (first binding wins). -/
def assocLook : List (List Nib × List Nat) → List Nib → Option (List Nat)
  | [], _ => none
  | e :: r, k => if e.1 = k then some e.2 else assocLook r k

/-- Value of the entry with the empty key, when present. -/
def emptyKeyVal (kvs : List (List Nib × List Nat)) : Option (List Nat) :=
  assocLook kvs []

/-- Modelled from the spec: builds the trie from key-value pairs (section 4.6
generation path: given mutable key-value pairs, build the trie); structural
recursion on an explicit fuel that dominates the key lengths. -/
def buildTrieF : Nat → List (List Nib × List Nat) → Trie
  | _, [] => .empty
  | _, [(k, v)] => .leaf k v
  | 0, _ => .empty
  | fuel + 1, kvs =>
    let p := lcpAll (kvs.map (fun e => e.1))
    let kvs2 := stripPre p.length kvs
    let br := Trie.branch (fun i => buildTrieF fuel (groupNib i kvs2))
      (emptyKeyVal kvs2)
    if p = [] then br else .ext p br

/-- Splits a byte into its two nibbles, high nibble first. -/
def byteNibs (b : Nat) : List Nib :=
  [⟨b / 16 % 16, by omega⟩, ⟨b % 16, by omega⟩]

/-- Converts a byte key to its nibble sequence. -/
def keyNibs (bs : List Nat) : List Nib :=
  bs.foldr (fun b acc => byteNibs b ++ acc) []

/-- Converts byte-keyed pairs to nibble-keyed pairs. -/
def kvsNibs (kvs : List (List Nat × List Nat)) :
    List (List Nib × List Nat) :=
  kvs.map (fun e => (keyNibs e.1, e.2))

/-- Largest nibble-key length of a pair list. -/
def maxNibLen (kvs : List (List Nib × List Nat)) : Nat :=
  kvs.foldr (fun e m => max e.1.length m) 0

/-- Builds the trie from byte-keyed pairs with sufficient fuel. -/
def buildTrie (kvs : List (List Nat × List Nat)) : Trie :=
  buildTrieF (maxNibLen (kvsNibs kvs) + 1) (kvsNibs kvs)

/-- Well-formedness used by walk correctness: extension nodes never have an
empty child (the builder only ever wraps a branch). -/
def extOk : Trie → Prop
  | .empty => True
  | .leaf _ _ => True
  | .ext _ c => c ≠ .empty ∧ extOk c
  | .branch cs _ => ∀ i, extOk (cs i)

theorem lcp2_pre_left : ∀ a b : List Nib, lcp2 a b <+: a
  | [], b => by cases b <;> simp [lcp2]
  | _ :: _, [] => by simp [lcp2]
  | x :: a, y :: b => by
    by_cases h : x = y
    · obtain ⟨t, ht⟩ := lcp2_pre_left a b
      exact ⟨t, by simp [lcp2, h, ht]⟩
    · simp [lcp2, h]

theorem lcp2_pre_right : ∀ a b : List Nib, lcp2 a b <+: b
  | [], b => by cases b <;> simp [lcp2]
  | _ :: _, [] => by simp [lcp2]
  | x :: a, y :: b => by
    by_cases h : x = y
    · obtain ⟨t, ht⟩ := lcp2_pre_right a b
      subst h
      exact ⟨t, by simp [lcp2, ht]⟩
    · simp [lcp2, h]

theorem foldl_lcp2_pre (ks : List (List Nib)) :
    ∀ acc : List Nib, ks.foldl lcp2 acc <+: acc ∧
      ∀ k ∈ ks, ks.foldl lcp2 acc <+: k := by
  induction ks with
  | nil => intro acc; simp
  | cons k rest ih =>
    intro acc
    obtain ⟨h1, h2⟩ := ih (lcp2 acc k)
    refine ⟨h1.trans (lcp2_pre_left acc k), ?_⟩
    intro k2 hk2
    rcases List.mem_cons.mp hk2 with h | h
    · exact h ▸ h1.trans (lcp2_pre_right acc k)
    · exact h2 k2 h

theorem lcpAll_pre (ks : List (List Nib)) :
    ∀ k ∈ ks, lcpAll ks <+: k := by
  cases ks with
  | nil => simp
  | cons k rest =>
    intro k2 hk2
    rcases List.mem_cons.mp hk2 with h | h
    · exact h ▸ (foldl_lcp2_pre rest k).1
    · exact (foldl_lcp2_pre rest k).2 k2 h

theorem assocLook_stripPre (p : List Nib)
    (kvs : List (List Nib × List Nat))
    (hp : ∀ e ∈ kvs, p <+: e.1) (k : List Nib) :
    assocLook (stripPre p.length kvs) k = assocLook kvs (p ++ k) := by
  induction kvs with
  | nil => simp [assocLook, stripPre]
  | cons e r ih =>
    obtain ⟨t, ht⟩ := hp e (by simp)
    have hdrop : e.1.drop p.length = t := by
      rw [← ht]; simp
    have ih2 := ih (fun e2 he2 => hp e2 (by simp [he2]))
    simp only [stripPre, List.map_cons] at ih2 ⊢
    by_cases h : t = k
    · subst h
      simp [assocLook, hdrop, ← ht]
    · have h2 : e.1 ≠ p ++ k := by
        rw [← ht]; intro hc
        exact h (List.append_cancel_left hc)
      simp [assocLook, hdrop, h, h2, ih2]

theorem assocLook_groupNib (i : Nib) (kvs : List (List Nib × List Nat))
    (k : List Nib) :
    assocLook (groupNib i kvs) k = assocLook kvs (i :: k) := by
  induction kvs with
  | nil => simp [assocLook, groupNib]
  | cons e r ih =>
    rcases e with ⟨ekey, ev⟩
    cases ekey with
    | nil =>
      simp only [groupNib, List.filterMap_cons] at ih ⊢
      simpa [assocLook] using ih
    | cons j t =>
      by_cases hj : j = i
      · subst hj
        by_cases htk : t = k
        · subst htk
          simp [groupNib, List.filterMap_cons, assocLook]
        · simp only [groupNib, List.filterMap_cons] at ih ⊢
          simp [assocLook, htk, ih]
      · simp only [groupNib, List.filterMap_cons] at ih ⊢
        simp [assocLook, hj, ih, Ne.symm hj]

theorem assocLook_no_pre (p : List Nib) (kvs : List (List Nib × List Nat))
    (hp : ∀ e ∈ kvs, p <+: e.1) (k : List Nib)
    (hk : k.take p.length ≠ p) : assocLook kvs k = none := by
  induction kvs with
  | nil => simp [assocLook]
  | cons e r ih =>
    have hne : e.1 ≠ k := by
      intro hc
      obtain ⟨t, ht⟩ := hp e (by simp)
      apply hk
      rw [← hc, ← ht]
      simp
    simp [assocLook, hne]
    exact ih (fun e2 he2 => hp e2 (by simp [he2]))

theorem stripPre_zero (kvs : List (List Nib × List Nat)) :
    stripPre 0 kvs = kvs := by
  simp [stripPre]

theorem buildTrieF_cons2 (fuel : Nat) (e1 e2 : List Nib × List Nat)
    (rest : List (List Nib × List Nat)) :
    buildTrieF (fuel + 1) (e1 :: e2 :: rest) =
      (if lcpAll ((e1 :: e2 :: rest).map (fun e => e.1)) = []
        then Trie.branch (fun i => buildTrieF fuel (groupNib i
          (stripPre (lcpAll ((e1 :: e2 :: rest).map (fun e => e.1))).length
            (e1 :: e2 :: rest))))
          (emptyKeyVal (stripPre (lcpAll ((e1 :: e2 :: rest).map
            (fun e => e.1))).length (e1 :: e2 :: rest)))
        else Trie.ext (lcpAll ((e1 :: e2 :: rest).map (fun e => e.1)))
          (Trie.branch (fun i => buildTrieF fuel (groupNib i
            (stripPre (lcpAll ((e1 :: e2 :: rest).map
              (fun e => e.1))).length (e1 :: e2 :: rest))))
            (emptyKeyVal (stripPre (lcpAll ((e1 :: e2 :: rest).map
              (fun e => e.1))).length (e1 :: e2 :: rest))))) := rfl

theorem lookupT_branchBuild (fuel : Nat)
    (kvs2 : List (List Nib × List Nat))
    (hfuel : ∀ e ∈ kvs2, e.1.length ≤ fuel)
    (ih : ∀ (kvs3 : List (List Nib × List Nat)) (k3 : List Nib),
      (∀ e ∈ kvs3, e.1.length < fuel) →
      lookupT (buildTrieF fuel kvs3) k3 = assocLook kvs3 k3)
    (k : List Nib) :
    lookupT (Trie.branch (fun i => buildTrieF fuel (groupNib i kvs2))
      (emptyKeyVal kvs2)) k = assocLook kvs2 k := by
  cases k with
  | nil => simp [lookupT, emptyKeyVal]
  | cons i k2 =>
    have hgf : ∀ e ∈ groupNib i kvs2, e.1.length < fuel := by
      intro e he
      rw [groupNib, List.mem_filterMap] at he
      obtain ⟨e0, he0, hf⟩ := he
      have hlen := hfuel e0 he0
      cases h0 : e0.1 with
      | nil => rw [h0] at hf; simp at hf
      | cons j t =>
        rw [h0] at hf
        dsimp only at hf
        by_cases hj : j = i
        · rw [if_pos hj] at hf
          injection hf with hf2
          subst hf2
          rw [h0] at hlen
          simp only [List.length_cons] at hlen
          show t.length < fuel
          omega
        · rw [if_neg hj] at hf
          exact absurd hf (by simp)
    calc lookupT (Trie.branch (fun i => buildTrieF fuel (groupNib i kvs2))
          (emptyKeyVal kvs2)) (i :: k2)
        = lookupT (buildTrieF fuel (groupNib i kvs2)) k2 := by
          simp [lookupT]
      _ = assocLook (groupNib i kvs2) k2 := ih (groupNib i kvs2) k2 hgf
      _ = assocLook kvs2 (i :: k2) := assocLook_groupNib i kvs2 k2

theorem lookupT_buildTrieF :
    ∀ (fuel : Nat) (kvs : List (List Nib × List Nat)) (k : List Nib),
      (∀ e ∈ kvs, e.1.length < fuel) →
      lookupT (buildTrieF fuel kvs) k = assocLook kvs k := by
  intro fuel
  induction fuel with
  | zero =>
    intro kvs k hfuel
    match kvs with
    | [] => simp [buildTrieF, lookupT, assocLook]
    | [(k0, v0)] =>
      by_cases hk : k = k0
      · subst hk; simp [buildTrieF, lookupT, assocLook]
      · simp [buildTrieF, lookupT, assocLook, hk, Ne.symm hk]
    | e1 :: e2 :: rest => exact absurd (hfuel e1 (by simp)) (by omega)
  | succ fuel ih =>
    intro kvs k hfuel
    match kvs with
    | [] => simp [buildTrieF, lookupT, assocLook]
    | [(k0, v0)] =>
      by_cases hk : k = k0
      · subst hk; simp [buildTrieF, lookupT, assocLook]
      · simp [buildTrieF, lookupT, assocLook, hk, Ne.symm hk]
    | e1 :: e2 :: rest =>
      have hp : ∀ e ∈ (e1 :: e2 :: rest),
          lcpAll ((e1 :: e2 :: rest).map (fun e => e.1)) <+: e.1 := by
        intro e he
        exact lcpAll_pre _ _ (List.mem_map_of_mem _ he)
      have hsf : ∀ e ∈ stripPre
          (lcpAll ((e1 :: e2 :: rest).map (fun e => e.1))).length
          (e1 :: e2 :: rest), e.1.length ≤ fuel := by
        intro e he
        rw [stripPre, List.mem_map] at he
        obtain ⟨e0, he0, hf⟩ := he
        have := hfuel e0 he0
        rw [← hf]
        simp only [List.length_drop]
        omega
      have hbr := lookupT_branchBuild fuel
        (stripPre (lcpAll ((e1 :: e2 :: rest).map (fun e => e.1))).length
          (e1 :: e2 :: rest)) hsf ih
      rw [buildTrieF_cons2]
      by_cases hpe : lcpAll ((e1 :: e2 :: rest).map (fun e => e.1)) = []
      · rw [if_pos hpe]
        rw [hbr k, hpe]
        simp only [List.length_nil, stripPre_zero]
      · rw [if_neg hpe]
        rw [lookupT]
        by_cases htake : k.take (lcpAll ((e1 :: e2 :: rest).map
            (fun e => e.1))).length = lcpAll ((e1 :: e2 :: rest).map
            (fun e => e.1))
        · rw [if_pos htake, hbr,
            assocLook_stripPre _ _ hp]
          congr 1
          conv_rhs => rw [← List.take_append_drop
            (lcpAll ((e1 :: e2 :: rest).map (fun e => e.1))).length k]
          rw [htake]
        · rw [if_neg htake,
            assocLook_no_pre _ _ hp k htake]

theorem extOk_buildTrieF :
    ∀ (fuel : Nat) (kvs : List (List Nib × List Nat)),
      extOk (buildTrieF fuel kvs) := by
  intro fuel
  induction fuel with
  | zero =>
    intro kvs
    match kvs with
    | [] => simp [buildTrieF, extOk]
    | [(k0, v0)] => simp [buildTrieF, extOk]
    | e1 :: e2 :: rest => simp [buildTrieF, extOk]
  | succ fuel ih =>
    intro kvs
    match kvs with
    | [] => simp [buildTrieF, extOk]
    | [(k0, v0)] => simp [buildTrieF, extOk]
    | e1 :: e2 :: rest =>
      rw [buildTrieF_cons2]
      by_cases hpe : lcpAll ((e1 :: e2 :: rest).map (fun e => e.1)) = []
      · rw [if_pos hpe]
        show ∀ i, extOk _
        intro i
        exact ih _
      · rw [if_neg hpe]
        exact ⟨fun h => Trie.noConfusion h, fun i => ih _⟩

theorem buildTrieF_ne_empty (fuel : Nat)
    (kvs : List (List Nib × List Nat)) (hne : kvs ≠ [])
    (hfuel : ∀ e ∈ kvs, e.1.length < fuel) :
    buildTrieF fuel kvs ≠ .empty := by
  match fuel, kvs with
  | _, [] => exact absurd rfl hne
  | fuel, [(k0, v0)] =>
    simp [buildTrieF]
  | 0, e1 :: e2 :: rest => exact absurd (hfuel e1 (by simp)) (by omega)
  | fuel + 1, e1 :: e2 :: rest =>
    rw [buildTrieF_cons2]
    split <;> simp

theorem maxNibLen_bound (kvs : List (List Nib × List Nat)) :
    ∀ e ∈ kvs, e.1.length < maxNibLen kvs + 1 := by
  induction kvs with
  | nil => simp
  | cons e r ih =>
    intro e2 he2
    rcases List.mem_cons.mp he2 with h | h
    · subst h
      simp only [maxNibLen, List.foldr_cons]
      omega
    · have := ih e2 h
      simp only [maxNibLen, List.foldr_cons] at this ⊢
      omega

/-- Looking a nibble key up in the trie built from byte-keyed pairs agrees
with association-list lookup. -/
theorem lookupT_buildTrie (kvs : List (List Nat × List Nat))
    (q : List Nib) :
    lookupT (buildTrie kvs) q = assocLook (kvsNibs kvs) q :=
  lookupT_buildTrieF _ _ q (maxNibLen_bound _)

/-- Unbounded natural-number encoding for the spec-modelled node codec:
repeated 255 markers, then a final digit below 255. -/
def encNat (n : Nat) : List Nat :=
  List.replicate (n / 255) 255 ++ [n % 255]

def readNat : List Nat → Option (Nat × List Nat)
  | [] => none
  | b :: r =>
    if b < 255 then some (b, r)
    else (readNat r).map (fun p => (p.1 + 255, p.2))

theorem readNat_rep (q r0 : Nat) (h : r0 < 255) (rest : List Nat) :
    readNat (List.replicate q 255 ++ r0 :: rest) =
      some (255 * q + r0, rest) := by
  induction q with
  | zero => simp [readNat, h]
  | succ q ih =>
    have h2 : ¬ (255 < 255) := by omega
    simp only [List.replicate_succ, List.cons_append, readNat, h2, if_false,
      List.append_eq, ih]
    show some (255 * q + r0 + 255, rest) = some (255 * (q + 1) + r0, rest)
    congr 2
    ring

theorem readNat_encNat (n : Nat) (r : List Nat) :
    readNat (encNat n ++ r) = some (n, r) := by
  have h1 : encNat n ++ r =
      List.replicate (n / 255) 255 ++ (n % 255 :: r) := by
    simp [encNat]
  rw [h1, readNat_rep _ _ (by omega)]
  have h2 : 255 * (n / 255) + n % 255 = n := by omega
  rw [h2]

/-- Little-endian u32 of the proof wire format (section 6). -/
def u32le (n : Nat) : List Nat :=
  [n % 256, n / 256 % 256, n / 65536 % 256, n / 16777216 % 256]

def readU32 : List Nat → Option (Nat × List Nat)
  | a :: b :: c :: d :: r =>
    some (a + 256 * b + 65536 * c + 16777216 * d, r)
  | _ => none

theorem readU32_u32le (n : Nat) (h : n < 2 ^ 32) (r : List Nat) :
    readU32 (u32le n ++ r) = some (n, r) := by
  simp [u32le, readU32]
  omega

def encBytes (b : List Nat) : List Nat := encNat b.length ++ b

def readBytes (l : List Nat) : Option (List Nat × List Nat) :=
  match readNat l with
  | some (n, r) => if n ≤ r.length then some (r.take n, r.drop n) else none
  | none => none

theorem readBytes_encBytes (b r : List Nat) :
    readBytes (encBytes b ++ r) = some (b, r) := by
  simp [encBytes, readBytes, List.append_assoc, readNat_encNat]

def encNibs (s : List Nib) : List Nat := encNat s.length ++ s.map Fin.val

def nibsOf? : List Nat → Option (List Nib)
  | [] => some []
  | x :: r =>
    if h : x < 16 then (nibsOf? r).map (fun ns => ⟨x, h⟩ :: ns) else none

def readNibs (l : List Nat) : Option (List Nib × List Nat) :=
  match readNat l with
  | some (n, r) =>
    if n ≤ r.length then
      match nibsOf? (r.take n) with
      | some ns => some (ns, r.drop n)
      | none => none
    else none
  | none => none

theorem nibsOf?_map (s : List Nib) : nibsOf? (s.map Fin.val) = some s := by
  induction s with
  | nil => rfl
  | cons x r ih => simp [nibsOf?, ih, x.isLt]

theorem readNibs_encNibs (s : List Nib) (r : List Nat) :
    readNibs (encNibs s ++ r) = some (s, r) := by
  simp [encNibs, readNibs, List.append_assoc, readNat_encNat, nibsOf?_map]

/-- Modelled from the spec: a decoded proof node (section 3): Leaf with key
suffix, value length and value hash; Extension with key suffix and child
hash; Branch with 16 optional child-hash slots and an optional value length
plus hash descriptor.  Hashes are byte strings; branch slots are kept as a
list in nibble order. -/
inductive PNode where
  | leaf (suffix : List Nib) (vlen : Nat) (vhash : List Nat)
  | ext (suffix : List Nib) (child : List Nat)
  | branch (slots : List (Option (List Nat)))
      (val : Option (Nat × List Nat))
  deriving DecidableEq, Repr

def encSlot : Option (List Nat) → List Nat
  | none => [0]
  | some h => 1 :: encBytes h

def readSlot : List Nat → Option (Option (List Nat) × List Nat)
  | 0 :: r => some (none, r)
  | 1 :: r => (readBytes r).map (fun p => (some p.1, p.2))
  | _ => none

def encSlots (slots : List (Option (List Nat))) : List Nat :=
  slots.foldr (fun sl acc => encSlot sl ++ acc) []

def readSlots : Nat → List Nat → Option (List (Option (List Nat)) × List Nat)
  | 0, l => some ([], l)
  | n + 1, l =>
    match readSlot l with
    | some (sl, r) => (readSlots n r).map (fun p => (sl :: p.1, p.2))
    | none => none

theorem readSlot_encSlot (sl : Option (List Nat)) (r : List Nat) :
    readSlot (encSlot sl ++ r) = some (sl, r) := by
  cases sl with
  | none => rfl
  | some h => simp [encSlot, readSlot, readBytes_encBytes]

theorem readSlots_encSlots (slots : List (Option (List Nat)))
    (r : List Nat) :
    readSlots slots.length (encSlots slots ++ r) = some (slots, r) := by
  induction slots generalizing r with
  | nil => rfl
  | cons sl rest ih =>
    simp only [encSlots, List.foldr_cons, List.length_cons,
      List.append_assoc]
    rw [readSlots]
    rw [show encSlot sl ++ (rest.foldr (fun sl acc => encSlot sl ++ acc) []
        ++ r) = encSlot sl ++ (encSlots rest ++ r) from rfl]
    rw [readSlot_encSlot]
    simp [ih]

def encVal : Option (Nat × List Nat) → List Nat
  | none => [0]
  | some (l, h) => 1 :: (encNat l ++ encBytes h)

def readVal : List Nat → Option (Option (Nat × List Nat) × List Nat)
  | 0 :: r => some (none, r)
  | 1 :: r =>
    match readNat r with
    | some (l, r2) =>
      match readBytes r2 with
      | some (h, r3) => some (some (l, h), r3)
      | none => none
    | none => none
  | _ => none

theorem readVal_encVal (v : Option (Nat × List Nat)) (r : List Nat) :
    readVal (encVal v ++ r) = some (v, r) := by
  match v with
  | none => rfl
  | some (l, h) =>
    simp [encVal, readVal, List.append_assoc, readNat_encNat,
      readBytes_encBytes]

/-- Modelled from the spec: serialization of a proof node (the node codec of
the consumed trie library is not under src; this codec is injective by the
decode round trip below and uses explicit length prefixes). -/
def serializePNode : PNode → List Nat
  | .leaf s vlen vh => 0 :: (encNibs s ++ encNat vlen ++ encBytes vh)
  | .ext s child => 1 :: (encNibs s ++ encBytes child)
  | .branch slots val => 2 :: (encNat slots.length ++ encSlots slots
      ++ encVal val)

/-- Modelled from the spec: decoding of a serialized proof node; a hard
decode failure is distinct from a verification result (section 4.6). -/
def decodePNode (l : List Nat) : Option PNode :=
  match l with
  | 0 :: r =>
    match readNibs r with
    | some (s, r1) =>
      match readNat r1 with
      | some (vlen, r2) =>
        match readBytes r2 with
        | some (vh, r3) => if r3 = [] then some (.leaf s vlen vh) else none
        | none => none
      | none => none
    | none => none
  | 1 :: r =>
    match readNibs r with
    | some (s, r1) =>
      match readBytes r1 with
      | some (c, r2) => if r2 = [] then some (.ext s c) else none
      | none => none
    | none => none
  | 2 :: r =>
    match readNat r with
    | some (n, r1) =>
      match readSlots n r1 with
      | some (slots, r2) =>
        match readVal r2 with
        | some (v, r3) => if r3 = [] then some (.branch slots v) else none
        | none => none
      | none => none
    | none => none
  | _ => none

theorem decodePNode_serializePNode (n : PNode) :
    decodePNode (serializePNode n) = some n := by
  match n with
  | .leaf s vlen vh =>
    have h1 : encNibs s ++ encNat vlen ++ encBytes vh =
        encNibs s ++ (encNat vlen ++ (encBytes vh ++ [])) := by
      simp [List.append_assoc]
    simp only [serializePNode, decodePNode, h1, readNibs_encNibs,
      readNat_encNat, readBytes_encBytes]
    simp
  | .ext s child =>
    have h1 : encNibs s ++ encBytes child =
        encNibs s ++ (encBytes child ++ []) := by simp
    simp only [serializePNode, decodePNode, h1, readNibs_encNibs,
      readBytes_encBytes]
    simp
  | .branch slots val =>
    have h1 : encNat slots.length ++ encSlots slots ++ encVal val =
        encNat slots.length ++ (encSlots slots ++ (encVal val ++ [])) := by
      simp [List.append_assoc]
    simp only [serializePNode, decodePNode, h1, readNat_encNat,
      readSlots_encSlots, readVal_encVal]
    simp

/-- Serialization is injective: decoding is a left inverse. -/
theorem serializePNode_inj : Function.Injective serializePNode := by
  intro a b h
  have := decodePNode_serializePNode a
  rw [h, decodePNode_serializePNode b] at this
  exact (Option.some.injEq _ _ ▸ this).symm

/-- Whether a trie is the empty trie. -/
def Trie.isEmptyT : Trie → Bool
  | .empty => true
  | _ => false

/-- Modelled from the spec: conversion of a structural trie node to its
content-addressed proof node (section 9: children referenced by the hash of
the serialized child node); parametrized by the hash function. -/
def toPNode (hashFn : List Nat → List Nat) : Trie → PNode
  | .empty => .branch ((List.finRange 16).map (fun _ => none)) none
  | .leaf s v => .leaf s v.length (hashFn v)
  | .ext s c => .ext s (hashFn (serializePNode (toPNode hashFn c)))
  | .branch cs v =>
    .branch
      ((List.finRange 16).map (fun i =>
        if (cs i).isEmptyT then none
        else some (hashFn (serializePNode (toPNode hashFn (cs i))))))
      (v.map (fun vv => (vv.length, hashFn vv)))

/-- Content hash of a trie node: hash of its serialized proof node. -/
def hashT (hashFn : List Nat → List Nat) (t : Trie) : List Nat :=
  hashFn (serializePNode (toPNode hashFn t))

/-- Modelled from the spec: the root-to-target path of structural nodes for
a queried key (section 4.6 generation: the minimal ordered node sequence
proving the first matching leaf, or the deepest node reached for absence). -/
def pathNodes : Trie → List Nib → List Trie
  | .empty, _ => []
  | .leaf s v, _ => [.leaf s v]
  | .ext s c, k =>
    .ext s c ::
      (if k.take s.length = s then pathNodes c (k.drop s.length) else [])
  | .branch cs v, [] => [.branch cs v]
  | .branch cs v, i :: k => .branch cs v :: pathNodes (cs i) k

/-- Modelled from the spec: proof generation over the built trie (the
generation path helper of the test file delegates to the consumed trie
library, which is not under src): the ordered serialized nodes of the
root-to-target path for the queried byte key. -/
def generate_trie_proof (hashFn : List Nat → List Nat) (t : Trie)
    (key : List Nat) : List (List Nat) :=
  (pathNodes t (keyNibs key)).map (fun n => serializePNode (toPNode hashFn n))

/-- Outcome of the verification walk of section 4.6. -/
inductive WalkResult where
  | present
  | absent
  | fail
  deriving DecidableEq, Repr

/-- Modelled from the spec: the verification walk of section 4.6: start at
the root hash, look the current hash up among the supplied records, decode
the node and descend; a hash not found while inputs remain is a failure;
outcomes are present (membership with matching value length and hash),
absent (a documented not-present outcome) and fail. -/
def walkVerify (hashFn : List Nat → List Nat)
    (records : List (List Nat)) :
    Nat → List Nat → List Nib → Option (List Nat) → WalkResult
  | 0, _, _, _ => .fail
  | fuel + 1, h, key, expected =>
    match records.find? (fun r => hashFn r = h) with
    | none => .fail
    | some r =>
      match decodePNode r with
      | none => .fail
      | some (.leaf s vlen vh) =>
        if key = s then
          match expected with
          | some v =>
            if vlen = v.length ∧ vh = hashFn v then .present else .fail
          | none => .fail
        else .absent
      | some (.ext s child) =>
        if key.take s.length = s then
          walkVerify hashFn records fuel child (key.drop s.length) expected
        else .absent
      | some (.branch slots val) =>
        match key with
        | [] =>
          match val, expected with
          | some (l, vh), some v =>
            if l = v.length ∧ vh = hashFn v then .present else .fail
          | some _, none => .fail
          | none, some _ => .absent
          | none, none => .absent
        | i :: k2 =>
          match slots.getD i.val none with
          | some child => walkVerify hashFn records fuel child k2 expected
          | none => .absent

theorem find?_hashFn (hashFn : List Nat → List Nat)
    (hinj : Function.Injective hashFn) (records : List (List Nat))
    (r0 : List Nat) (h0 : r0 ∈ records) :
    records.find? (fun r => hashFn r = hashFn r0) = some r0 := by
  induction records with
  | nil => simp at h0
  | cons r rest ih =>
    by_cases h : hashFn r = hashFn r0
    · have : r = r0 := hinj h
      subst this
      simp [List.find?_cons]
    · have hne : r ≠ r0 := fun hc => h (by rw [hc])
      have h0b : r0 ∈ rest := by
        rcases List.mem_cons.mp h0 with hc | hc
        · exact absurd hc.symm hne
        · exact hc
      simp [List.find?_cons, h, ih h0b]

theorem getD_finRange_map {α : Type} (f : Nib → α) (d : α) (i : Nib) :
    ((List.finRange 16).map f).getD i.val d = f i := by
  have hlen : i.val < ((List.finRange 16).map f).length := by
    simp [List.length_finRange, i.isLt]
  rw [List.getD_eq_getElem _ _ hlen]
  rw [List.getElem_map]
  congr 1
  rcases i with ⟨iv, hiv⟩
  exact List.get_finRange _

/-- Core round-trip lemma: over the records of a generated path, the walk of
section 4.6 reproduces the lookup result: present with the stored value for
a present key, absent for an absent key. -/
theorem walkVerify_pathNodes (hashFn : List Nat → List Nat)
    (hinj : Function.Injective hashFn) (records : List (List Nat)) :
    ∀ (t : Trie), extOk t → t ≠ .empty →
      ∀ (k : List Nib) (fuel : Nat),
      (∀ n ∈ pathNodes t k,
        serializePNode (toPNode hashFn n) ∈ records) →
      (pathNodes t k).length ≤ fuel →
      (∀ v, lookupT t k = some v →
        walkVerify hashFn records fuel (hashT hashFn t) k (some v) =
          .present) ∧
      (lookupT t k = none →
        walkVerify hashFn records fuel (hashT hashFn t) k none = .absent) := by
  intro t
  induction t with
  | empty =>
    intro _ hne
    exact absurd rfl hne
  | leaf s v =>
    intro _ _ k fuel hmem hfuel
    match fuel with
    | 0 => simp [pathNodes] at hfuel
    | fuel + 1 =>
      have hroot : serializePNode (toPNode hashFn (.leaf s v)) ∈ records :=
        hmem _ (by simp [pathNodes])
      have hfind := find?_hashFn hashFn hinj records _ hroot
      constructor
      · intro v0 hlook
        rw [lookupT] at hlook
        by_cases hk : k = s
        · rw [if_pos hk] at hlook
          injection hlook with hv0
          subst hv0
          simp only [walkVerify, hashT]
          rw [hfind]
          dsimp only
          rw [decodePNode_serializePNode]
          simp only [toPNode]
          rw [if_pos hk]
          simp
        · rw [if_neg hk] at hlook
          exact absurd hlook (by simp)
      · intro hlook
        rw [lookupT] at hlook
        by_cases hk : k = s
        · rw [if_pos hk] at hlook
          exact absurd hlook (by simp)
        · simp only [walkVerify, hashT]
          rw [hfind]
          dsimp only
          rw [decodePNode_serializePNode]
          simp only [toPNode]
          rw [if_neg hk]
  | ext s c ih =>
    intro hok _ k fuel hmem hfuel
    obtain ⟨hcne, hcok⟩ := hok
    match fuel with
    | 0 => simp [pathNodes] at hfuel
    | fuel + 1 =>
      have hroot : serializePNode (toPNode hashFn (.ext s c)) ∈ records :=
        hmem _ (by simp [pathNodes])
      have hfind := find?_hashFn hashFn hinj records _ hroot
      by_cases htake : k.take s.length = s
      · have hmem2 : ∀ n ∈ pathNodes c (k.drop s.length),
            serializePNode (toPNode hashFn n) ∈ records := by
          intro n hn
          exact hmem n (by simp [pathNodes, htake, hn])
        have hfuel2 : (pathNodes c (k.drop s.length)).length ≤ fuel := by
          simp only [pathNodes, if_pos htake, List.length_cons] at hfuel
          omega
        have hrec := ih hcok hcne (k.drop s.length) fuel hmem2 hfuel2
        constructor
        · intro v0 hlook
          rw [lookupT, if_pos htake] at hlook
          simp only [walkVerify, hashT]
          rw [hfind]
          dsimp only
          rw [decodePNode_serializePNode]
          simp only [toPNode]
          rw [if_pos htake]
          exact hrec.1 v0 hlook
        · intro hlook
          rw [lookupT, if_pos htake] at hlook
          simp only [walkVerify, hashT]
          rw [hfind]
          dsimp only
          rw [decodePNode_serializePNode]
          simp only [toPNode]
          rw [if_pos htake]
          exact hrec.2 hlook
      · constructor
        · intro v0 hlook
          rw [lookupT, if_neg htake] at hlook
          exact absurd hlook (by simp)
        · intro _
          simp only [walkVerify, hashT]
          rw [hfind]
          dsimp only
          rw [decodePNode_serializePNode]
          simp only [toPNode]
          rw [if_neg htake]
  | branch cs v ih =>
    intro hok _ k fuel hmem hfuel
    match fuel with
    | 0 => cases k <;> simp [pathNodes] at hfuel
    | fuel + 1 =>
      have hroot : serializePNode (toPNode hashFn (.branch cs v)) ∈
          records := by
        cases k <;> exact hmem _ (by simp [pathNodes])
      have hfind := find?_hashFn hashFn hinj records _ hroot
      cases k with
      | nil =>
        constructor
        · intro v0 hlook
          rw [lookupT] at hlook
          subst hlook
          simp only [walkVerify, hashT]
          rw [hfind]
          dsimp only
          rw [decodePNode_serializePNode]
          simp only [toPNode]
          simp
        · intro hlook
          rw [lookupT] at hlook
          subst hlook
          simp only [walkVerify, hashT]
          rw [hfind]
          dsimp only
          rw [decodePNode_serializePNode]
          simp only [toPNode]
          simp
      | cons i k2 =>
        have hslot : ((List.finRange 16).map (fun j =>
            if (cs j).isEmptyT then none
            else some (hashFn (serializePNode (toPNode hashFn
              (cs j)))))).getD i.val none =
            (if (cs i).isEmptyT then none
            else some (hashFn (serializePNode (toPNode hashFn (cs i))))) :=
          getD_finRange_map _ _ i
        by_cases hempty : cs i = .empty
        · constructor
          · intro v0 hlook
            rw [lookupT, hempty] at hlook
            exact absurd hlook (by simp [lookupT])
          · intro _
            simp only [walkVerify, hashT]
            rw [hfind]
            dsimp only
            rw [decodePNode_serializePNode]
            simp only [toPNode]
            rw [hslot, hempty]
            simp [Trie.isEmptyT]
        · have hee : (cs i).isEmptyT = false := by
            cases hcs : cs i <;> simp [Trie.isEmptyT] <;>
              exact absurd hcs hempty
          have hmem2 : ∀ n ∈ pathNodes (cs i) k2,
              serializePNode (toPNode hashFn n) ∈ records := by
            intro n hn
            exact hmem n (by simp [pathNodes, hn])
          have hfuel2 : (pathNodes (cs i) k2).length ≤ fuel := by
            simp only [pathNodes, List.length_cons] at hfuel
            omega
          have hrec := ih i (hok i) hempty k2 fuel hmem2 hfuel2
          constructor
          · intro v0 hlook
            rw [lookupT] at hlook
            simp only [walkVerify, hashT]
            rw [hfind]
            dsimp only
            rw [decodePNode_serializePNode]
            simp only [toPNode]
            rw [hslot, hee]
            simp only [if_false, Bool.false_eq_true]
            exact hrec.1 v0 hlook
          · intro hlook
            rw [lookupT] at hlook
            simp only [walkVerify, hashT]
            rw [hfind]
            dsimp only
            rw [decodePNode_serializePNode]
            simp only [toPNode]
            rw [hslot, hee]
            simp only [if_false, Bool.false_eq_true]
            exact hrec.2 hlook

/-- Splits the proof wire format of section 6, a sequence of u32-length-
prefixed records, expecting exactly count records and no trailing bytes. -/
def splitRecords : Nat → List Nat → Option (List (List Nat))
  | 0, l => if l = [] then some [] else none
  | n + 1, l =>
    match readU32 l with
    | some (len, r) =>
      if len ≤ r.length then
        (splitRecords n (r.drop len)).map (fun rs => r.take len :: rs)
      else none
    | none => none

/-- Encodes records in the proof wire format of section 6. -/
def encRecords (rs : List (List Nat)) : List Nat :=
  rs.foldr (fun r acc => u32le r.length ++ (r ++ acc)) []

theorem splitRecords_encRecords (rs : List (List Nat))
    (h : ∀ r ∈ rs, r.length < 2 ^ 32) :
    splitRecords rs.length (encRecords rs) = some rs := by
  induction rs with
  | nil => rfl
  | cons r rest ih =>
    have hlen := h r (by simp)
    have hrest : ∀ r2 ∈ rest, r2.length < 2 ^ 32 :=
      fun r2 h2 => h r2 (by simp [h2])
    simp only [encRecords, List.foldr_cons, List.length_cons]
    rw [splitRecords]
    rw [show rest.foldr (fun r acc => u32le r.length ++ (r ++ acc)) [] =
      encRecords rest from rfl]
    rw [readU32_u32le r.length hlen (r ++ encRecords rest)]
    dsimp only
    rw [if_pos (by simp)]
    rw [List.take_left, List.drop_left]
    rw [ih hrest]
    rfl

/-- Modelled from the spec: the verify_membership_trie_proof host call
(section 4.6, metered path; implementation not under src; guest-memory
plumbing elided: root hash bytes, record count, raw length-prefixed record
bytes, key bytes and expected value are taken directly).  Malformed framing
is a hard error distinct from a false verification outcome. -/
def verify_membership_trie_proof (hashFn : List Nat → List Nat)
    (root : List Nat) (count : Nat) (proof_raw : List Nat)
    (key value : List Nat) : Except HostErr Bool :=
  match splitRecords count proof_raw with
  | none => .error .MalformedTrieProof
  | some records =>
    .ok (decide (walkVerify hashFn records (records.length + 1) root
      (keyNibs key) (some value) = .present))

/-- Modelled from the spec: the verify_non_membership_trie_proof host call
(section 4.6): the walk must terminate in a documented not-present
outcome. -/
def verify_non_membership_trie_proof (hashFn : List Nat → List Nat)
    (root : List Nat) (count : Nat) (proof_raw : List Nat)
    (key : List Nat) : Except HostErr Bool :=
  match splitRecords count proof_raw with
  | none => .error .MalformedTrieProof
  | some records =>
    .ok (decide (walkVerify hashFn records (records.length + 1) root
      (keyNibs key) none = .absent))

/-- C3: a proof produced by the generation path over a populated trie
round-trips through the metered verification host calls: with the root hash,
the length-prefixed serialized proof nodes, the key and the stored value,
verify_membership_trie_proof succeeds for a key that was inserted; for a key
that was never inserted, verify_non_membership_trie_proof over the generated
proof succeeds.  Parametrized by an injective (collision-free) hash
function; the record lengths must fit the u32 length prefix of the wire
format. -/
theorem C3_trie_proof_roundtrip (hashFn : List Nat → List Nat)
    (hinj : Function.Injective hashFn)
    (kvs : List (List Nat × List Nat)) (key : List Nat)
    (hsz : ∀ r ∈ generate_trie_proof hashFn (buildTrie kvs) key,
      r.length < 2 ^ 32) :
    (∀ v, assocLook (kvsNibs kvs) (keyNibs key) = some v →
      verify_membership_trie_proof hashFn (hashT hashFn (buildTrie kvs))
        (generate_trie_proof hashFn (buildTrie kvs) key).length
        (encRecords (generate_trie_proof hashFn (buildTrie kvs) key))
        key v = .ok true) ∧
    (kvs ≠ [] → assocLook (kvsNibs kvs) (keyNibs key) = none →
      verify_non_membership_trie_proof hashFn
        (hashT hashFn (buildTrie kvs))
        (generate_trie_proof hashFn (buildTrie kvs) key).length
        (encRecords (generate_trie_proof hashFn (buildTrie kvs) key))
        key = .ok true) := by
  have hsplit := splitRecords_encRecords _ hsz
  have hmem : ∀ n ∈ pathNodes (buildTrie kvs) (keyNibs key),
      serializePNode (toPNode hashFn n) ∈
        generate_trie_proof hashFn (buildTrie kvs) key := by
    intro n hn
    exact List.mem_map_of_mem _ hn
  have hlen : (pathNodes (buildTrie kvs) (keyNibs key)).length ≤
      (generate_trie_proof hashFn (buildTrie kvs) key).length + 1 := by
    simp [generate_trie_proof]
  have hne : kvs ≠ [] → buildTrie kvs ≠ .empty := by
    intro h
    exact buildTrieF_ne_empty _ _
      (by
        intro hc
        apply h
        cases kvs with
        | nil => rfl
        | cons e r => simp [kvsNibs] at hc)
      (maxNibLen_bound _)
  constructor
  · intro v hv
    have hkne : kvs ≠ [] := by
      intro h
      rw [h] at hv
      simp [kvsNibs, assocLook] at hv
    have hwalk := (walkVerify_pathNodes hashFn hinj _ (buildTrie kvs)
      (extOk_buildTrieF _ _) (hne hkne) (keyNibs key)
      ((generate_trie_proof hashFn (buildTrie kvs) key).length + 1)
      hmem hlen).1 v (by rw [lookupT_buildTrie]; exact hv)
    rw [verify_membership_trie_proof, hsplit]
    simp [hwalk]
  · intro hkne hv
    have hwalk := (walkVerify_pathNodes hashFn hinj _ (buildTrie kvs)
      (extOk_buildTrieF _ _) (hne hkne) (keyNibs key)
      ((generate_trie_proof hashFn (buildTrie kvs) key).length + 1)
      hmem hlen).2 (by rw [lookupT_buildTrie]; exact hv)
    rw [verify_non_membership_trie_proof, hsplit]
    simp [hwalk]

/-- Witness for C3: the two-pair store with byte keys 1 and 2; membership of
key 1 with value 9 verifies, non-membership of the absent key 3 verifies;
the identity hash function is injective. -/
theorem C3_witness :
    verify_membership_trie_proof (fun l => l)
      (hashT (fun l => l) (buildTrie [([1], [9]), ([2], [7])]))
      (generate_trie_proof (fun l => l)
        (buildTrie [([1], [9]), ([2], [7])]) [1]).length
      (encRecords (generate_trie_proof (fun l => l)
        (buildTrie [([1], [9]), ([2], [7])]) [1]))
      [1] [9] = .ok true ∧
    verify_non_membership_trie_proof (fun l => l)
      (hashT (fun l => l) (buildTrie [([1], [9]), ([2], [7])]))
      (generate_trie_proof (fun l => l)
        (buildTrie [([1], [9]), ([2], [7])]) [3]).length
      (encRecords (generate_trie_proof (fun l => l)
        (buildTrie [([1], [9]), ([2], [7])]) [3]))
      [3] = .ok true :=
  ⟨(C3_trie_proof_roundtrip (fun l => l) (fun _ _ h => h)
      [([1], [9]), ([2], [7])] [1] (by decide)).1 [9] (by decide),
    (C3_trie_proof_roundtrip (fun l => l) (fun _ _ h => h)
      [([1], [9]), ([2], [7])] [3] (by decide)).2 (by decide) (by decide)⟩

/-- Nodes map of the ProofVerifier of
src/integration-tests/src/tests/runtime/state_viewer.rs (lines 28 to 39):
each raw proof record is hashed and decoded into the map. -/
def proofVerifierNodes (hashFn : List Nat → List Nat)
    (proof : List (List Nat)) : List (List Nat × PNode) :=
  proof.filterMap (fun bytes =>
    (decodePNode bytes).map (fun n => (hashFn bytes, n)))

/-- The verify method of ProofVerifier, embedded from
src/integration-tests/src/tests/runtime/state_viewer.rs lines 41 to 99:
walk the nodes map from the state root along the nibbles of the raw
account-scoped key; a Leaf with a differing suffix, a non-matching
Extension, or a Branch without the needed child confirms only an expected
absence; a matching Leaf compares the expected value length and hash; a
Branch with the key exhausted compares its value descriptor with the
expectation; leaving the map yields false.  The source while loop is
modelled with fuel. -/
def ProofVerifier.verify (hashFn : List Nat → List Nat)
    (nodes : List (List Nat × PNode)) :
    Nat → List Nat → List Nib → Option (List Nat) → Bool
  | 0, _, _, _ => false
  | fuel + 1, expected_hash, key, expected =>
    match ((nodes.find? (fun e => e.1 = expected_hash)).map
        (fun e => e.2) : Option PNode) with
    | none => false
    | some (.leaf node_key value_length value_hash) =>
      if key ≠ node_key then expected.isNone
      else
        match expected with
        | some value =>
          if value_length ≠ value.length then false
          else decide (hashFn value = value_hash)
        | none => false
    | some (.ext node_key child_hash) =>
      if ¬ (key.take node_key.length = node_key) then expected.isNone
      else ProofVerifier.verify hashFn nodes fuel child_hash
        (key.drop node_key.length) expected
    | some (.branch children value) =>
      match key with
      | [] => decide (value = expected.map (fun v => (v.length, hashFn v)))
      | index :: rest =>
        match children.getD index.val none with
        | some child_hash =>
          ProofVerifier.verify hashFn nodes fuel child_hash rest expected
        | none => expected.isNone

/-- Modelled from the spec: the raw account-scoped trie key of contract
data (section 6: keys are structured, account scope plus raw suffix): the
contract-data column byte 9, the account id bytes, the separator byte 44
and the data key. -/
def contractDataKey (account : List Nat) (key : List Nat) : List Nat :=
  9 :: account ++ 44 :: key

/-- Lexicographic byte-string order used for the view result. -/
def bytesLe : List Nat → List Nat → Bool
  | [], _ => true
  | _ :: _, [] => false
  | a :: as2, b :: bs =>
    if a < b then true else if a = b then bytesLe as2 bs else false

def insertLe (x : List Nat × List Nat) :
    List (List Nat × List Nat) → List (List Nat × List Nat)
  | [] => [x]
  | y :: r => if bytesLe x.1 y.1 then x :: y :: r else y :: insertLe x r

/-- Insertion sort by key in lexicographic byte order. -/
def sortByKey : List (List Nat × List Nat) → List (List Nat × List Nat)
  | [] => []
  | x :: r => insertLe x (sortByKey r)

/-- Typed errors of the read-only inspection path (section 7). -/
inductive ViewStateError where
  | AccountStateTooLarge (state_size limit : Nat)
  deriving DecidableEq, Repr

/-- Result of a view_state query: the matching key-value pairs, keys with
the account scope stripped, and the proof records. -/
structure ViewResult where
  values : List (List Nat × List Nat)
  proof : List (List Nat)
  deriving DecidableEq, Repr

/-- Modelled from the spec: the value set and proof of a view_state query
(section 3 View Result): the pairs under the account scope matching the
query key in lexicographic key order, and the proof generated for the first
matching full key, or for the queried raw scope key when nothing matches. -/
def viewStateValues (hashFn : List Nat → List Nat)
    (kvs : List (List Nat × List Nat)) (account : List Nat)
    (query : List Nat) : ViewResult :=
  let rawQuery := contractDataKey account query
  let scope := contractDataKey account []
  let matching := sortByKey (kvs.filter (fun e => rawQuery.isPrefixOf e.1))
  { values := matching.map (fun e => (e.1.drop scope.length, e.2)),
    proof := generate_trie_proof hashFn (buildTrie kvs)
      (match matching with
        | [] => rawQuery
        | e :: _ => e.1) }

/-- Modelled from the spec: TrieViewer view_state (implementation not under
src): with a configured state-size limit, an account whose storage usage
net of its stored contract code exceeds the limit is rejected with the
typed AccountStateTooLarge error (section 7, no gas at stake); otherwise
the view result is produced. -/
def view_state (hashFn : List Nat → List Nat)
    (state_size_limit : Option Nat) (storage_usage code_len : Nat)
    (kvs : List (List Nat × List Nat)) (account : List Nat)
    (query : List Nat) : Except ViewStateError ViewResult :=
  match state_size_limit with
  | some limit =>
    if storage_usage - code_len > limit then
      .error (.AccountStateTooLarge (storage_usage - code_len) limit)
    else .ok (viewStateValues hashFn kvs account query)
  | none => .ok (viewStateValues hashFn kvs account query)

/-- A concrete 32-bit FNV-style hash to instantiate the proof subsystem on
concrete data. -/
def fnvHash (bs : List Nat) : List Nat :=
  let h := bs.foldl (fun h b => (h * 16777619 + b) % 4294967296) 2166136261
  [h % 256, h / 256 % 256, h / 65536 % 256, h / 16777216 % 256]

/-- Account id bytes of alice.near, used by the end-to-end view scenario. -/
def aliceAccount : List Nat := [97, 108, 105, 99, 101, 46, 110, 101, 97, 114]

/-- The four-entry state of the end-to-end view scenario: test123 and
test321 under alice.near, and unrelated keys under alina and alex. -/
def c9State : List (List Nat × List Nat) :=
  [(contractDataKey aliceAccount [116, 101, 115, 116, 49, 50, 51],
      [49, 50, 51]),
    (contractDataKey aliceAccount [116, 101, 115, 116, 51, 50, 49],
      [51, 50, 49]),
    (contractDataKey [97, 108, 105, 110, 97] [113, 113, 113], [51, 50, 49]),
    (contractDataKey [97, 108, 101, 120] [113, 113, 113], [51, 50, 49])]

set_option maxRecDepth 40000 in
/-- C9: in a trie holding test123 to 123 and test321 to 321 under
alice.near and unrelated keys under two other accounts, view_state for
alice.near with the empty query returns exactly the two pairs in
lexicographic key order together with the inclusion proof generated for the
first key, under which the ProofVerifier verify method (embedded from the
source) confirms the first key with its value against the state root, while
a wrong key or a None expectation for the present key fails to verify; the
query xyz returns an empty value set. -/
theorem C9_view_state_scenario :
    (view_state fnvHash none 0 0 c9State aliceAccount []).map
      ViewResult.values =
      .ok [([116, 101, 115, 116, 49, 50, 51], [49, 50, 51]),
        ([116, 101, 115, 116, 51, 50, 49], [51, 50, 49])] ∧
    (view_state fnvHash none 0 0 c9State aliceAccount []).map
      ViewResult.proof =
      .ok (generate_trie_proof fnvHash (buildTrie c9State)
        (contractDataKey aliceAccount [116, 101, 115, 116, 49, 50, 51])) ∧
    (view_state fnvHash none 0 0 c9State aliceAccount
      [120, 121, 122]).map ViewResult.values = .ok [] ∧
    ProofVerifier.verify fnvHash
      (proofVerifierNodes fnvHash (generate_trie_proof fnvHash
        (buildTrie c9State)
        (contractDataKey aliceAccount [116, 101, 115, 116, 49, 50, 51])))
      ((proofVerifierNodes fnvHash (generate_trie_proof fnvHash
        (buildTrie c9State)
        (contractDataKey aliceAccount
          [116, 101, 115, 116, 49, 50, 51]))).length + 1)
      (hashT fnvHash (buildTrie c9State))
      (keyNibs (contractDataKey aliceAccount
        [116, 101, 115, 116, 49, 50, 51]))
      (some [49, 50, 51]) = true ∧
    ProofVerifier.verify fnvHash
      (proofVerifierNodes fnvHash (generate_trie_proof fnvHash
        (buildTrie c9State)
        (contractDataKey aliceAccount [116, 101, 115, 116, 49, 50, 51])))
      ((proofVerifierNodes fnvHash (generate_trie_proof fnvHash
        (buildTrie c9State)
        (contractDataKey aliceAccount
          [116, 101, 115, 116, 49, 50, 51]))).length + 1)
      (hashT fnvHash (buildTrie c9State))
      (keyNibs (contractDataKey aliceAccount
        [116, 101, 115, 116, 49, 50, 51]))
      none = false ∧
    ProofVerifier.verify fnvHash
      (proofVerifierNodes fnvHash (generate_trie_proof fnvHash
        (buildTrie c9State)
        (contractDataKey aliceAccount [116, 101, 115, 116, 49, 50, 51])))
      ((proofVerifierNodes fnvHash (generate_trie_proof fnvHash
        (buildTrie c9State)
        (contractDataKey aliceAccount
          [116, 101, 115, 116, 49, 50, 51]))).length + 1)
      (hashT fnvHash (buildTrie c9State))
      (keyNibs (contractDataKey aliceAccount
        [110, 111, 110, 45, 102, 111, 117, 110, 100, 45, 107, 101, 121]))
      (some [49, 50, 51]) = false :=
  ⟨rfl, rfl, rfl, rfl, rfl, rfl⟩

/-- C10: with a configured state-size limit, view_state on an account whose
storage usage net of its stored contract code exceeds the limit returns the
typed AccountStateTooLarge error rather than a metered execution failure;
storage attributable to deployed contract code is excluded from the
accounting, so an account whose usage exceeds the limit solely because of
its code is viewed successfully. -/
theorem C10_view_state_size_limit :
    (∀ (hashFn : List Nat → List Nat) (limit usage code : Nat)
        (kvs : List (List Nat × List Nat)) (account query : List Nat),
      usage - code > limit →
      view_state hashFn (some limit) usage code kvs account query =
        .error (.AccountStateTooLarge (usage - code) limit)) ∧
    (∀ (hashFn : List Nat → List Nat) (limit usage code : Nat)
        (kvs : List (List Nat × List Nat)) (account query : List Nat),
      usage - code ≤ limit →
      (view_state hashFn (some limit) usage code kvs account
        query).isOk = true) := by
  constructor
  · intro hashFn limit usage code kvs account query h
    simp [view_state, h]
  · intro hashFn limit usage code kvs account query h
    have h2 : ¬ (usage - code > limit) := by omega
    simp [view_state, h2, Except.isOk, Except.toBool]

/-- Witness for C10: storage usage 50001 against limit 50000 with no code
errors with AccountStateTooLarge; the same usage with 10000 bytes of stored
code is viewed successfully. -/
theorem C10_witness :
    view_state fnvHash (some 50000) 50001 0 [] [] [] =
      .error (.AccountStateTooLarge (50001 - 0) 50000) ∧
    (view_state fnvHash (some 50000) 50001 10000 [] [] []).isOk = true :=
  ⟨C10_view_state_size_limit.1 fnvHash 50000 50001 0 [] [] [] (by decide),
    C10_view_state_size_limit.2 fnvHash 50000 50001 10000 [] [] []
      (by decide)⟩

end NearVM

